import Mathlib

/-!
# helm-bos: the repository index kept in an object store

A shallow embedding of `pkg/bos/bos.go` and `pkg/repo/repo.go`.

* Go functions returning `error` return `Option Error` (`none` is `nil`);
  functions returning `(T, error)` return `Except Error T`.
* A run-time panic and an exhausted loop budget are separate outcomes
  (`Outcome.panic`, `Outcome.outOfFuel`), never errors.
* Code that lives outside the repository (net/url, path, the YAML codec, the
  chart loader, the clock, the object-store SDK) is a parameter: the fields of
  `Env` and `Client`.  The methods of helm's `repo.IndexFile` are definitions
  written from the specification, each marked as such.
* `World.calls` is a history of the requests made to package `bos`; the
  source does not keep it, the theorems read it.
-/

namespace HelmBos

/-! ## Errors and outcomes -/

/-- Go `error` values.  `ErrIndexOutOfDate` is the package-level sentinel of
`repo.go`; `new` stands for `errors.New` / `fmt.Errorf`; `wrap` for
`errors.Wrap(cause, msg)`.  The comparison `err == ErrIndexOutOfDate` of the
source is equality with the first constructor. -/
inductive Error where
  | ErrIndexOutOfDate
  | new (msg : String)
  | wrap (cause : Error) (msg : String)
  deriving DecidableEq, Repr

/-- How a Go call ends: it returns, it panics, or (for the unbounded retry
loops only) the budget of iterations granted to the model is used up. -/
inductive Outcome (α : Type) where
  | done (a : α)
  | panic (msg : String)
  | outOfFuel
  deriving DecidableEq, Repr

abbrev Bytes := List UInt8

instance {ε α : Type} [DecidableEq ε] [DecidableEq α] : DecidableEq (Except ε α) :=
  fun a b =>
    match a, b with
    | .ok x, .ok y => if h : x = y then isTrue (by rw [h]) else isFalse (by intro e; cases e; exact h rfl)
    | .error x, .error y =>
      if h : x = y then isTrue (by rw [h]) else isFalse (by intro e; cases e; exact h rfl)
    | .ok _, .error _ => isFalse (by intro e; cases e)
    | .error _, .ok _ => isFalse (by intro e; cases e)

/-! ## Data of the collaborators -/

/-- The fields of `net/url.URL` that the repository reads. -/
structure URL where
  Scheme : String
  Opaque : String
  Host : String
  Path : String
  RawQuery : String
  Fragment : String
  deriving DecidableEq, Repr

/-- Package metadata (`chart.Metadata`): the identity fields and one
descriptive field standing for the rest, which the repository only copies. -/
structure Metadata where
  Name : String
  Version : String
  Description : String
  deriving DecidableEq, Repr

/-- One record of the index (`repo.ChartVersion`). -/
structure ChartVersion where
  Metadata : Metadata
  URLs : List String
  Created : Nat
  Digest : String
  deriving DecidableEq, Repr

/-- The version string of a record (`v.Version` through the embedded
metadata). -/
def ChartVersion.Version (v : ChartVersion) : String := v.Metadata.Version

/-- The Go map `map[string]ChartVersions`, as an association list read at its
first matching key. -/
abbrev EntryMap := List (String × List ChartVersion)

/-- Map read `m[name]` with the comma-ok result. -/
def EntryMap.get (m : EntryMap) (name : String) : Option (List ChartVersion) :=
  match m with
  | [] => none
  | (k, vs) :: rest => if k = name then some vs else EntryMap.get rest name

/-- Map write `m[name] = vs`. -/
def EntryMap.set (m : EntryMap) (name : String) (vs : List ChartVersion) : EntryMap :=
  match m with
  | [] => [(name, vs)]
  | (k, old) :: rest =>
    if k = name then (k, vs) :: rest else (k, old) :: EntryMap.set rest name vs

/-- Map removal `delete(m, name)`. -/
def EntryMap.delete (m : EntryMap) (name : String) : EntryMap :=
  m.filter (fun kv => decide (kv.1 ≠ name))

/-- The index document (`repo.IndexFile`). -/
structure IndexFile where
  APIVersion : String
  Generated : Nat
  Entries : EntryMap
  deriving DecidableEq, Repr

/-- The library code the repository calls, taken as parameters. -/
structure Env where
  /-- Is `url.Parse`. -/
  urlParse : String → Except Error URL
  /-- Is `(*url.URL).String`. -/
  urlString : URL → String
  /-- Is `path.Join` of two elements. -/
  pathJoin : String → String → String
  /-- Is `filepath.Split`. -/
  filepathSplit : String → String × String
  /-- The download URL helm forms from a base URL and a file name when it
  adds a record. -/
  urlJoin : String → String → String
  /-- The in-place `sort.Sort(sort.Reverse(versions))` of `SortEntries`. -/
  sortVersions : List ChartVersion → List ChartVersion
  /-- Is `yaml.Marshal` on an index. -/
  marshal : IndexFile → Except Error Bytes
  /-- Is `yaml.Unmarshal` into an empty index. -/
  unmarshal : Bytes → Except Error IndexFile
  /-- Is `loader.Load`, reduced to the metadata of the chart. -/
  loaderLoad : String → Except Error Metadata
  /-- Is `provenance.DigestFile`. -/
  digestFile : String → Except Error String
  /-- Is `time.Now()`. -/
  now : Nat

/-- What `BasicGetObject` hands back: a body whose complete read
(`ioutil.ReadAll`) yields bytes or fails. -/
structure GetObjectResult where
  Body : Except Error Bytes
  deriving DecidableEq, Repr

/-- The object-store client (`*bos.Client` of the SDK) over a remote state
`σ`.  A read leaves the remote state alone; the three writes return the next
remote state. -/
structure Client (σ : Type) where
  BasicGetObject : String → String → σ → Except Error GetObjectResult
  PutObjectFromBytes : String → String → Bytes → σ → Option Error × σ
  PutObjectFromFile : String → String → String → σ → Option Error × σ
  DeleteObject : String → String → σ → Option Error × σ

/-- A request received by package `bos`, by the URL it was given. -/
inductive Call where
  | Object (path : String)
  | UploadFile (path : String) (fpath : String)
  | UploadByte (path : String) (data : Bytes)
  | Delete (path : String)
  deriving DecidableEq, Repr

/-- The remote state together with the history of requests made to package
`bos`, oldest first. -/
structure World (σ : Type) where
  remote : σ
  calls : List Call
  deriving DecidableEq, Repr

/-- A Go procedure acting on the world. -/
abbrev M (σ : Type) (α : Type) := World σ → Outcome α × World σ

/-! ## Package bos -/

/-- Go `s[1:]` on a string: out of range exactly when `s` is empty. -/
def sliceFrom1 (s : String) : Outcome String :=
  match s.data with
  | [] => .panic "slice bounds out of range [1:0]"
  | _ :: rest => .done (String.mk rest)

/-- Function `splitPath` of bos.go. -/
def splitPath (E : Env) (gcsurl : String) : Outcome (Except Error (String × String)) :=
  match E.urlParse gcsurl with
  | .error err => .done (.error err)
  | .ok u =>
    if u.Scheme ≠ "bs" ∧ u.Scheme ≠ "bos" then
      .done (.error (.new "incorrect url, should be \"bos://bucket/path\""))
    else
      match sliceFrom1 u.Path with
      | .done path => .done (.ok (u.Host, path))
      | .panic msg => .panic msg
      | .outOfFuel => .outOfFuel

/-- Records a request in the history. -/
def World.record {σ : Type} (w : World σ) (c : Call) : World σ :=
  { w with calls := w.calls ++ [c] }

/-- Function `Object` of bos.go. -/
def bos.Object {σ : Type} (client : Client σ) (E : Env) (path : String) :
    M σ (Except Error GetObjectResult) := fun w =>
  let w1 := w.record (.Object path)
  match splitPath E path with
  | .panic msg => (.panic msg, w1)
  | .outOfFuel => (.outOfFuel, w1)
  | .done (.error err) => (.done (.error (.wrap err "split path")), w1)
  | .done (.ok (bucket, key)) => (.done (client.BasicGetObject bucket key w1.remote), w1)

/-- Function `UploadFile` of bos.go. -/
def bos.UploadFile {σ : Type} (client : Client σ) (E : Env) (path fpath : String) :
    M σ (Option Error) := fun w =>
  let w1 := w.record (.UploadFile path fpath)
  match splitPath E path with
  | .panic msg => (.panic msg, w1)
  | .outOfFuel => (.outOfFuel, w1)
  | .done (.error err) => (.done (some (.wrap err "split path")), w1)
  | .done (.ok (bucket, key)) =>
    let r := client.PutObjectFromFile bucket key fpath w1.remote
    (.done r.1, { w1 with remote := r.2 })

/-- Function `UploadByte` of bos.go. -/
def bos.UploadByte {σ : Type} (client : Client σ) (E : Env) (path : String) (data : Bytes) :
    M σ (Option Error) := fun w =>
  let w1 := w.record (.UploadByte path data)
  match splitPath E path with
  | .panic msg => (.panic msg, w1)
  | .outOfFuel => (.outOfFuel, w1)
  | .done (.error err) => (.done (some (.wrap err "split path")), w1)
  | .done (.ok (bucket, key)) =>
    let r := client.PutObjectFromBytes bucket key data w1.remote
    (.done r.1, { w1 with remote := r.2 })

/-- Function `Delete` of bos.go. -/
def bos.Delete {σ : Type} (client : Client σ) (E : Env) (path : String) :
    M σ (Option Error) := fun w =>
  let w1 := w.record (.Delete path)
  match splitPath E path with
  | .panic msg => (.panic msg, w1)
  | .outOfFuel => (.outOfFuel, w1)
  | .done (.error err) => (.done (some (.wrap err "split path")), w1)
  | .done (.ok (bucket, key)) =>
    let r := client.DeleteObject bucket key w1.remote
    (.done r.1, { w1 with remote := r.2 })

/-! ## Sequencing of procedures -/

/-- Runs `m`, then `f` on its value; a panic or an exhausted budget ends the
run where it happened. -/
def M.bind {σ α β : Type} (m : M σ α) (f : α → M σ β) : M σ β := fun w =>
  match m w with
  | (.done a, w1) => f a w1
  | (.panic msg, w1) => (.panic msg, w1)
  | (.outOfFuel, w1) => (.outOfFuel, w1)

/-- Returns `a` without touching the world. -/
def M.ret {σ α : Type} (a : α) : M σ α := fun w => (.done a, w)

/-- Panics with `msg`. -/
def M.panic {σ α : Type} (msg : String) : M σ α := fun w => (.panic msg, w)

instance {σ : Type} : Monad (M σ) where
  pure := M.ret
  bind := M.bind

/-! ## The index document -/

/-- Modelled from the spec: `NewIndexFile` of helm's package `repo` (not under
src/): "a freshly-constructed empty Index Document". -/
def NewIndexFile (E : Env) : IndexFile :=
  { APIVersion := "v1", Generated := E.now, Entries := [] }

/-- Modelled from the spec: `Get` of helm's `repo.IndexFile` (not under src/):
"exact lookup; returns nothing (not an error) when absent".  The first record
of `name` whose version string equals `version`. -/
def IndexFile.Get (i : IndexFile) (name version : String) : Option ChartVersion :=
  match i.Entries.get name with
  | none => none
  | some vs => vs.find? (fun v => decide (v.Version = version))

/-- Modelled from the spec: `Has` of helm's `repo.IndexFile` (not under src/):
"true iff an entry with exact name+version exists". -/
def IndexFile.Has (i : IndexFile) (name version : String) : Bool :=
  (i.Get name version).isSome

/-- Modelled from the spec: `Add` of helm's `repo.IndexFile` (not under src/):
"constructs a VersionEntry from package metadata and the resolved URL/digest
... then appends the new entry", with exactly one download URL.  (The removal
of an older record is the caller's loop in `updateIndexFile`.) -/
def IndexFile.Add (E : Env) (i : IndexFile) (md : Metadata) (filename baseURL digest : String) :
    IndexFile :=
  let cr : ChartVersion :=
    { Metadata := md, URLs := [E.urlJoin baseURL filename], Created := E.now, Digest := digest }
  { i with Entries := i.Entries.set md.Name ((i.Entries.get md.Name).getD [] ++ [cr]) }

/-- Modelled from the spec: `SortEntries` of helm's `repo.IndexFile` (not under
src/): "re-establishes canonical ordering" of the versions of every name. -/
def IndexFile.SortEntries (E : Env) (i : IndexFile) : IndexFile :=
  { i with Entries := i.Entries.map (fun kv => (kv.1, E.sortVersions kv.2)) }

/-- The three statements `vs[i] = vs[len(vs)-1]`, `vs[len(vs)-1] = nil`,
`vs[:len(vs)-1]` of both removal loops: the slice that results. -/
def swapRemove (vs : List ChartVersion) (i : Nat) : List ChartVersion :=
  match vs.getLast? with
  | none => vs
  | some last => (vs.set i last).dropLast

/-! ## Package repo -/

/-- A repository known to helm (`repo.Entry`). -/
structure Entry where
  Name : String
  URL : String
  deriving DecidableEq, Repr

/-- The repository handle (`Repo`); `entry` is a pointer that `New` leaves
nil. -/
structure Repo where
  entry : Option Entry
  indexFileURL : String
  indexFileGeneration : Int
  deriving DecidableEq, Repr

/-- Function `resolveReference` of repo.go. -/
def resolveReference (E : Env) (base p : String) : Except Error String :=
  match E.urlParse base with
  | .error err => .error (.wrap err "url parsing")
  | .ok baseURL => .ok (E.urlString { baseURL with Path := E.pathJoin baseURL.Path p })

/-- Function `New` of repo.go. -/
def New (E : Env) (path : String) : Except Error Repo :=
  match resolveReference E path "index.yaml" with
  | .error err => .error (.wrap err "resolve index reference")
  | .ok indexFileURL => .ok { entry := none, indexFileURL := indexFileURL, indexFileGeneration := 0 }

/-- Function `getURL` of repo.go. -/
def getURL (E : Env) (base : String) (pub : Bool) (publicURL : String) : Except Error String :=
  match E.urlParse base with
  | .error err => .error err
  | .ok baseURL =>
    if pub = true ∧ publicURL ≠ "" then .ok publicURL
    else if pub = true then .ok ("https://" ++ baseURL.Host ++ ".cdn.bcebos.com/" ++ baseURL.Path)
    else .ok (E.urlString baseURL)

/-- The document `uploadIndexFile` marshals: `i.SortEntries()` followed by
`i.Generated = time.Now()`. -/
def Repo.uploadIndexFile.document (E : Env) (i : IndexFile) : IndexFile :=
  { i.SortEntries E with Generated := E.now }

/-- Method `uploadIndexFile` of repo.go: sort, stamp, marshal, upload.  No
generation is sent or compared. -/
def Repo.uploadIndexFile {σ : Type} (c : Client σ) (E : Env) (r : Repo) (i : IndexFile) :
    M σ (Option Error) :=
  match E.marshal (Repo.uploadIndexFile.document E i) with
  | .error err => pure (some (.wrap err "marshal"))
  | .ok b => bos.UploadByte c E r.indexFileURL b

/-- Method `indexFile` of repo.go.  The assignment of `indexFileGeneration` is
commented out in the source, so the handle is not changed. -/
def Repo.indexFile {σ : Type} (c : Client σ) (E : Env) (r : Repo) :
    M σ (Except Error IndexFile) := do
  match ← bos.Object c E r.indexFileURL with
  | .error err => return .error (.wrap err "object")
  | .ok res =>
    match res.Body with
    | .error err => return .error (.wrap err "read")
    | .ok b =>
      match E.unmarshal b with
      | .error err => return .error (.wrap err "unmarshal")
      | .ok i => return .ok (i.SortEntries E)

/-- Function `Create` of repo.go. -/
def Create {σ : Type} (c : Client σ) (E : Env) (r : Repo) : M σ (Option Error) := do
  match ← bos.Object c E r.indexFileURL with
  | .error err => return some (.wrap err "object")
  | .ok res =>
    match res.Body with
    | .error _ => r.uploadIndexFile c E (NewIndexFile E)
    | .ok body =>
      -- `return nil` when the body is non-empty; otherwise `return err`, where
      -- `err` is the nil error of the successful `ReadAll`
      if body.length > 0 then return none
      else return none

/-- Method `uploadChart` of repo.go. -/
def Repo.uploadChart {σ : Type} (c : Client σ) (E : Env) (r : Repo) (chartpath : String) :
    M σ (Option Error) :=
  let fname := (E.filepathSplit chartpath).2
  match r.entry with
  | none => M.panic "invalid memory address or nil pointer dereference"
  | some entry =>
    match resolveReference E entry.URL fname with
    | .error err => pure (some (.wrap err "resolve reference"))
    | .ok chartURL => bos.UploadFile c E chartURL chartpath

/-- The loop of `updateIndexFile` over `chartVersions`: the slice assigned to
the map entry at the first record whose version is `version`, if any. -/
def Repo.updateIndexFile.loop (version : String) (chartVersions : List ChartVersion) :
    List ChartVersion → Nat → Option (List ChartVersion)
  | [], _ => none
  | ver :: rest, idx =>
    if ver.Version = version then some (swapRemove chartVersions idx)
    else Repo.updateIndexFile.loop version chartVersions rest (idx + 1)

/-- The index that `updateIndexFile` hands to `uploadIndexFile`: the current
record of the chart removed (if there is one), the new record added. -/
def Repo.updateIndexFile.newIndex (E : Env) (i : IndexFile) (chartpath : String)
    (chart : Metadata) (url hash : String) : IndexFile :=
  let fname := (E.filepathSplit chartpath).2
  let i1 : IndexFile :=
    match i.Get chart.Name chart.Version with
    | none => i
    | some currentChart =>
      let chartVersions := (i.Entries.get chart.Name).getD []
      match Repo.updateIndexFile.loop currentChart.Version chartVersions chartVersions 0 with
      | none => i
      | some vs => { i with Entries := i.Entries.set chart.Name vs }
  i1.Add E chart fname url hash

/-- Method `updateIndexFile` of repo.go. -/
def Repo.updateIndexFile {σ : Type} (c : Client σ) (E : Env) (r : Repo) (i : IndexFile)
    (chartpath : String) (chart : Metadata) (pub : Bool) (publicURL : String) :
    M σ (Option Error) :=
  match E.digestFile chartpath with
  | .error err => pure (some (.wrap err "generate chart file digest"))
  | .ok hash =>
    match r.entry with
    | none => M.panic "invalid memory address or nil pointer dereference"
    | some entry =>
      match getURL E entry.URL pub publicURL with
      | .error err => pure (some (.wrap err "get chart base url"))
      | .ok url =>
        r.uploadIndexFile c E (Repo.updateIndexFile.newIndex E i chartpath chart url hash)

/-- The loop `for err == ErrIndexOutOfDate` of `PushChart`, entered with the
condition true.  `.error e` is the `return` inside the loop; `.ok err` is the
value of `err` when the loop ends. -/
def Repo.PushChart.retryLoop {σ : Type} (c : Client σ) (E : Env) (r : Repo)
    (chartpath : String) (chart : Metadata) (pub : Bool) (publicURL : String) :
    Nat → M σ (Except Error (Option Error))
  | 0 => fun w => (.outOfFuel, w)
  | fuel + 1 => do
    match ← r.indexFile c E with
    | .error err => return .error (.wrap err "load index file")
    | .ok i =>
      let err ← r.updateIndexFile c E i chartpath chart pub publicURL
      if err = some .ErrIndexOutOfDate then
        Repo.PushChart.retryLoop c E r chartpath chart pub publicURL fuel
      else return .ok err

/-- The end of `PushChart`, from `if err != nil` after the retry loop. -/
def Repo.PushChart.finish {σ : Type} (c : Client σ) (E : Env) (r : Repo)
    (chartpath : String) (err : Option Error) : M σ (Option Error) :=
  match err with
  | some e => pure (some (.wrap e "update index file"))
  | none => do
    match ← r.uploadChart c E chartpath with
    | some e => return some (.wrap e "write chart")
    | none => return none

/-- Method `PushChart` of repo.go; `fuel` bounds the iterations of its retry
loop. -/
def Repo.PushChart {σ : Type} (c : Client σ) (E : Env) (fuel : Nat) (r : Repo)
    (chartpath : String) (force retry pub : Bool) (publicURL : String) :
    M σ (Option Error) := do
  match ← r.indexFile c E with
  | .error err => return some (.wrap err "load index file")
  | .ok i =>
    match E.loaderLoad chartpath with
    | .error err => return some (.wrap err "load chart")
    | .ok chart =>
      if i.Has chart.Name chart.Version = true ∧ force = false then
        return some (.new ("chart " ++ chart.Name ++ "-" ++ chart.Version ++
          " already indexed. Use --force to still upload the chart"))
      else
        let err ← r.updateIndexFile c E i chartpath chart pub publicURL
        if err = some .ErrIndexOutOfDate ∧ retry = true then
          match ← Repo.PushChart.retryLoop c E r chartpath chart pub publicURL fuel with
          | .error e => return some e
          | .ok err1 => Repo.PushChart.finish c E r chartpath err1
        else Repo.PushChart.finish c E r chartpath err

/-- The loop of `RemoveChart` over `vs`: the URLs collected and the slice
assigned to the map entry, if the loop reached its `break`. -/
def Repo.RemoveChart.loop (r : Repo) (name version : String) (vs : List ChartVersion) :
    List ChartVersion → Nat → List String → Outcome (List String × Option (List ChartVersion))
  | [], _, urls => .done (urls, none)
  | v :: rest, i, urls =>
    if version = "" ∨ version = v.Version then
      match r.entry with
      | none => .panic "invalid memory address or nil pointer dereference"
      | some entry =>
        let chartURL := entry.URL ++ "/" ++ name ++ "-" ++ v.Version ++ ".tgz"
        if version = v.Version then .done (urls ++ [chartURL], some (swapRemove vs i))
        else Repo.RemoveChart.loop r name version vs rest (i + 1) (urls ++ [chartURL])
    else Repo.RemoveChart.loop r name version vs rest (i + 1) urls

/-- The index that `RemoveChart` hands to `uploadIndexFile`, from the loaded
index and what its loop assigned. -/
def Repo.RemoveChart.newIndex (index : IndexFile) (name version : String)
    (assigned : Option (List ChartVersion)) : IndexFile :=
  let index1 : IndexFile :=
    match assigned with
    | some vs1 => { index with Entries := index.Entries.set name vs1 }
    | none => index
  if version = "" ∨ ((index1.Entries.get name).getD []).length = 0 then
    { index1 with Entries := index1.Entries.delete name }
  else index1

/-- The loop "Delete charts from BOS" of `RemoveChart`. -/
def Repo.RemoveChart.deleteAll {σ : Type} (c : Client σ) (E : Env) :
    List String → M σ (Option Error)
  | [] => pure none
  | url :: rest => do
    match ← bos.Delete c E url with
    | some err => return some (.wrap err "delete")
    | none => Repo.RemoveChart.deleteAll c E rest

/-- Method `RemoveChart` of repo.go; `fuel` bounds the passes through the
label `removeChart`. -/
def Repo.RemoveChart {σ : Type} (c : Client σ) (E : Env) (r : Repo) (name version : String)
    (retry : Bool) : Nat → M σ (Option Error)
  | 0 => fun w => (.outOfFuel, w)
  | fuel + 1 => do
    match ← r.indexFile c E with
    | .error err => return some (.wrap err "index")
    | .ok index =>
      match index.Entries.get name with
      | none => return some (.new ("chart \"" ++ name ++ "\" not found"))
      | some vs =>
        match Repo.RemoveChart.loop r name version vs vs 0 [] with
        | .panic msg => M.panic msg
        | .outOfFuel => fun w => (.outOfFuel, w)
        | .done (urls, assigned) =>
          let err ← r.uploadIndexFile c E (Repo.RemoveChart.newIndex index name version assigned)
          if err = some .ErrIndexOutOfDate ∧ retry = true then
            Repo.RemoveChart c E r name version retry fuel
          else
            match err with
            | some e => return some e
            | none => Repo.RemoveChart.deleteAll c E urls

/-! ## A concrete environment and concrete stores for the examples -/

namespace Sample

/-- Characters of the URLs of the examples: letters, digits and `. - _ / :`. -/
def plainChar (c : Char) : Bool :=
  c.isAlphanum || c == '.' || c == '-' || c == '_' || c == '/' || c == ':'

/-- Function `getScheme` of net/url on the characters of the raw URL:
`none` is its error "missing protocol scheme", otherwise scheme and rest. -/
def getScheme (raw : List Char) : List Char → List Char → Option (List Char × List Char)
  | [], _ => some ([], raw)
  | c :: rest, seen =>
    if c.isAlpha then getScheme raw rest (seen ++ [c])
    else if c.isDigit || c == '+' || c == '-' || c == '.' then
      if seen = [] then some ([], raw) else getScheme raw rest (seen ++ [c])
    else if c == ':' then
      if seen = [] then none else some (seen, rest)
    else some ([], raw)

/-- Function `validOptionalPort` of net/url. -/
def validOptionalPort (port : List Char) : Bool :=
  match port with
  | [] => true
  | c :: digits => c == ':' && digits.all Char.isDigit

/-- The part of `host` from its last colon on (`host[strings.LastIndex(host, ":"):]`),
empty when there is no colon. -/
def colonPort (host : List Char) : List Char :=
  if host.contains ':' then
    ':' :: (host.reverse.takeWhile (fun c => c != ':')).reverse
  else []

/-- What `url.Parse` computes on a raw URL made of letters, digits and
`. - _ / :` (no query, fragment, user, escape or bracket); any other raw URL
is rejected here. -/
def urlParse (rawURL : String) : Except Error URL :=
  let raw := rawURL.data
  let fail (msg : String) : Except Error URL :=
    .error (.new ("parse \"" ++ rawURL ++ "\": " ++ msg))
  if !raw.all plainChar then fail "outside the URLs of the examples"
  else
    match getScheme raw raw [] with
    | none => fail "missing protocol scheme"
    | some (scheme0, rest) =>
      let scheme := String.mk (scheme0.map Char.toLower)
      if rest.head? ≠ some '/' then
        if scheme ≠ "" then
          .ok { Scheme := scheme, Opaque := String.mk rest, Host := "", Path := "",
                RawQuery := "", Fragment := "" }
        else if (rest.takeWhile (fun c => c != '/')).contains ':' then
          fail "first path segment in URL cannot contain colon"
        else
          .ok { Scheme := scheme, Opaque := "", Host := "", Path := String.mk rest,
                RawQuery := "", Fragment := "" }
      else if (scheme ≠ "" ∨ rest.take 3 ≠ ['/', '/', '/']) ∧ rest.take 2 = ['/', '/'] then
        let authority := (rest.drop 2).takeWhile (fun c => c != '/')
        let path := (rest.drop 2).dropWhile (fun c => c != '/')
        if !validOptionalPort (colonPort authority) then
          fail ("invalid port \"" ++ String.mk (colonPort authority) ++ "\" after host")
        else
          .ok { Scheme := scheme, Opaque := "", Host := String.mk authority,
                Path := String.mk path, RawQuery := "", Fragment := "" }
      else
        .ok { Scheme := scheme, Opaque := "", Host := "", Path := String.mk rest,
              RawQuery := "", Fragment := "" }

/-- What `(*url.URL).String` prints for a URL with a scheme and a host, made
of the characters above, without query or fragment. -/
def urlString (u : URL) : String :=
  let head := if u.Scheme ≠ "" then u.Scheme ++ ":" else ""
  if u.Opaque ≠ "" then head ++ u.Opaque
  else
    let auth :=
      if u.Scheme ≠ "" ∨ u.Host ≠ "" then
        (if u.Host ≠ "" ∨ u.Path ≠ "" then "//" else "") ++ u.Host
      else ""
    let slash := if u.Path ≠ "" ∧ u.Path.data.head? ≠ some '/' ∧ u.Host ≠ "" then "/" else ""
    head ++ auth ++ slash ++ u.Path

/-- What `path.Join` returns on two elements that are already clean. -/
def pathJoin (a b : String) : String :=
  if a = "" then b else if b = "" then a
  else if a.data.getLast? = some '/' then a ++ b else a ++ "/" ++ b

/-- What `filepath.Split` returns: the path cut after its last slash. -/
def filepathSplit (p : String) : String × String :=
  let file := (p.data.reverse.takeWhile (fun c => c != '/')).reverse
  (String.mk (p.data.take (p.data.length - file.length)), String.mk file)

/-- The download URL of a file under a base URL with a clean path. -/
def urlJoin (base file : String) : String :=
  if base.data.getLast? = some '/' then base ++ file else base ++ "/" ++ file

/-- Inserts a record before the first record with a version string that is
not greater. -/
def insertDesc (v : ChartVersion) : List ChartVersion → List ChartVersion
  | [] => [v]
  | x :: rest =>
    if x.Version.data < v.Version.data then v :: x :: rest else x :: insertDesc v rest

/-- A sort into descending order of version strings. -/
def sortVersions : List ChartVersion → List ChartVersion
  | [] => []
  | v :: rest => insertDesc v (sortVersions rest)

/-- Splits at every occurrence of `sep`. -/
def splitOn (sep : Char) : List Char → List (List Char)
  | [] => [[]]
  | c :: rest =>
    if c = sep then [] :: splitOn sep rest
    else
      match splitOn sep rest with
      | [] => [[c]]
      | first :: others => (c :: first) :: others

/-- One line per record: name, version, digest and URL separated by spaces. -/
def renderRecord (name : String) (v : ChartVersion) : List Char :=
  name.data ++ [' '] ++ v.Version.data ++ [' '] ++ v.Digest.data ++ [' '] ++
    (String.join v.URLs).data ++ ['\n']

/-- A line-oriented codec standing for YAML: the records of every name, in
order. -/
def marshal (i : IndexFile) : Except Error Bytes :=
  .ok ((i.Entries.flatMap (fun kv => kv.2.flatMap (renderRecord kv.1))).map (fun c => c.toNat.toUInt8))

/-- Adds a decoded record at the end of the versions of its name. -/
def addRecord (m : EntryMap) (name : String) (v : ChartVersion) : EntryMap :=
  m.set name ((m.get name).getD [] ++ [v])

/-- Decodes the lines written by `marshal`. -/
def decodeLines : List (List Char) → EntryMap → Except Error EntryMap
  | [], m => .ok m
  | line :: rest, m =>
    if line = [] then decodeLines rest m
    else
      match splitOn ' ' line with
      | [name, version, digest, url] =>
        decodeLines rest (addRecord m (String.mk name)
          { Metadata := { Name := String.mk name, Version := String.mk version, Description := "" },
            URLs := [String.mk url], Created := 0, Digest := String.mk digest })
      | _ => .error (.new "yaml: not an index")

/-- The decoder of the codec. -/
def unmarshal (b : Bytes) : Except Error IndexFile :=
  match decodeLines (splitOn '\n' (b.map (fun x => Char.ofNat x.toNat))) [] with
  | .error err => .error err
  | .ok m => .ok { APIVersion := "v1", Generated := 0, Entries := m }

/-- The local charts of the examples, by path: metadata and digest. -/
def charts : List (String × Metadata × String) :=
  [("/tmp/foo-1.0.0.tgz", { Name := "foo", Version := "1.0.0", Description := "" }, "sha-new")]

/-- The environment of the examples. -/
def env : Env :=
  { urlParse := urlParse
    urlString := urlString
    pathJoin := pathJoin
    filepathSplit := filepathSplit
    urlJoin := urlJoin
    sortVersions := sortVersions
    marshal := marshal
    unmarshal := unmarshal
    loaderLoad := fun p =>
      match charts.lookup p with
      | some c => .ok c.1
      | none => .error (.new "no such file")
    digestFile := fun p =>
      match charts.lookup p with
      | some c => .ok c.2
      | none => .error (.new "no such file")
    now := 7 }

/-- A bucket store in memory: blobs by bucket and key. -/
abbrev Mem := List ((String × String) × Bytes)

/-- Writes a blob. -/
def Mem.put (m : Mem) (k : String × String) (b : Bytes) : Mem :=
  (k, b) :: m.filter (fun e => decide (e.1 ≠ k))

/-- An object store in which every write succeeds and a read of an absent
blob fails, as the service answers NoSuchKey. -/
def memClient : Client Mem :=
  { BasicGetObject := fun bucket key m =>
      match m.lookup (bucket, key) with
      | some b => .ok { Body := .ok b }
      | none => .error (.new "NoSuchKey")
    PutObjectFromBytes := fun bucket key data m => (none, Mem.put m (bucket, key) data)
    PutObjectFromFile := fun bucket key fpath m =>
      (none, Mem.put m (bucket, key) (fpath.data.map (fun c => c.toNat.toUInt8)))
    DeleteObject := fun bucket key m => (none, m.filter (fun e => decide (e.1 ≠ (bucket, key)))) }

/-- An object store that accepts writes and refuses every deletion. -/
def noDeleteClient : Client Mem :=
  { memClient with DeleteObject := fun _ _ m => (some (.new "AccessDenied"), m) }

/-- The handle of the examples, as `Load` builds it for a repository
registered at `bos://bucket/charts`. -/
def repo : Repo :=
  { entry := some { Name := "myrepo", URL := "bos://bucket/charts" }
    indexFileURL := "bos://bucket/charts/index.yaml"
    indexFileGeneration := 0 }

/-- Record of the examples. -/
def record (name version digest : String) : ChartVersion :=
  { Metadata := { Name := name, Version := version, Description := "" }
    URLs := ["bos://bucket/charts/" ++ name ++ "-" ++ version ++ ".tgz"]
    Created := 0
    Digest := digest }

/-- The encoded index holding the given records of `foo`. -/
def docBytes (vs : List ChartVersion) : Bytes :=
  match marshal { APIVersion := "v1", Generated := 0, Entries := [("foo", vs)] } with
  | .ok b => b
  | .error _ => []

/-- A store whose index blob holds the given records of `foo`. -/
def store (vs : List ChartVersion) : World Mem :=
  { remote := [(("bucket", "charts/index.yaml"), docBytes vs)], calls := [] }

/-- An object store in which every write succeeds, a read of an absent blob
fails and so does the deletion of an absent blob (NoSuchKey). -/
def strictClient : Client Mem :=
  { memClient with
    DeleteObject := fun bucket key m =>
      match m.lookup (bucket, key) with
      | some _ => (none, m.filter (fun e => decide (e.1 ≠ (bucket, key))))
      | none => (some (.new "NoSuchKey"), m) }

/-- The archive blob of a version of `foo`: its key and its content. -/
def archive (version : String) : (String × String) × Bytes :=
  (("bucket", "charts/foo-" ++ version ++ ".tgz"), version.data.map (fun c => c.toNat.toUInt8))

/-- A store whose index blob holds the given records of `foo`, next to the
archive of each of them. -/
def storeWithArchives (vs : List ChartVersion) : World Mem :=
  { remote := (("bucket", "charts/index.yaml"), docBytes vs) ::
      vs.map (fun v => archive v.Version),
    calls := [] }

end Sample

/-! ## Sequencing lemmas -/

theorem M.bind_done {σ α β : Type} {m : M σ α} {f : α → M σ β} {w w1 : World σ} {a : α}
    (h : m w = (.done a, w1)) : (m >>= f) w = f a w1 := by
  show M.bind m f w = f a w1
  simp [M.bind, h]

theorem M.pure_apply {σ α : Type} (a : α) (w : World σ) :
    (pure a : M σ α) w = (.done a, w) := rfl

/-- A load of the index only records one `Object` request: the remote state
is the same afterwards. -/
theorem Repo.indexFile_world {σ : Type} (c : Client σ) (E : Env) (r : Repo) (w : World σ) :
    (r.indexFile c E w).2 = w.record (.Object r.indexFileURL) := by
  show (M.bind (bos.Object c E r.indexFileURL) _ w).2 = _
  unfold M.bind bos.Object
  cases h : splitPath E r.indexFileURL with
  | panic msg => simp
  | outOfFuel => simp
  | done res =>
    cases res with
    | error err => simp [M.pure_apply]
    | ok p =>
      obtain ⟨bucket, key⟩ := p
      simp only
      cases c.BasicGetObject bucket key (w.record (.Object r.indexFileURL)).remote with
      | error err => simp [M.pure_apply]
      | ok res =>
        cases hb : res.Body with
        | error err => simp [M.pure_apply, hb]
        | ok b =>
          cases hu : E.unmarshal b with
          | error err => simp [M.pure_apply, hb, hu]
          | ok i => simp [M.pure_apply, hb, hu]

/-- An upload of bytes records one `UploadByte` request. -/
theorem bos.UploadByte_calls {σ : Type} (c : Client σ) (E : Env) (path : String) (b : Bytes)
    (w : World σ) : (bos.UploadByte c E path b w).2.calls = w.calls ++ [.UploadByte path b] := by
  unfold bos.UploadByte
  cases h : splitPath E path with
  | panic msg => simp [World.record]
  | outOfFuel => simp [World.record]
  | done res =>
    cases res with
    | error err => simp [World.record]
    | ok p => simp [World.record]

/-! ## splitPath -/

/-- When `splitPath` returns a pair, the URL parsed, its scheme is `bs` or
`bos`, the bucket is the host and the path is the URL path without its first
character. -/
theorem splitPath_ok (E : Env) (gcsurl bucket path : String)
    (h : splitPath E gcsurl = .done (.ok (bucket, path))) :
    ∃ u, E.urlParse gcsurl = .ok u ∧ (u.Scheme = "bs" ∨ u.Scheme = "bos") ∧
      bucket = u.Host ∧ ∃ ch, u.Path.data = ch :: path.data := by
  unfold splitPath at h
  cases hp : E.urlParse gcsurl with
  | error err => simp [hp] at h
  | ok u =>
    refine ⟨u, rfl, ?_⟩
    simp only [hp] at h
    split at h
    · simp at h
    · rename_i hs
      unfold sliceFrom1 at h
      cases hd : u.Path.data with
      | nil => simp [hd] at h
      | cons ch rest =>
        simp only [hd] at h
        simp only [Outcome.done.injEq, Except.ok.injEq, Prod.mk.injEq] at h
        refine ⟨?_, h.1.symm, ch, ?_⟩
        · by_contra hne
          exact hs ⟨fun e => hne (Or.inl e), fun e => hne (Or.inr e)⟩
        · rw [← h.2]

/-- Whatever the parser, a URL with scheme `bs` or `bos` and an empty path
makes `splitPath` panic on `u.Path[1:]`. -/
theorem splitPath_empty_path (E : Env) (gcsurl : String) (u : URL)
    (hparse : E.urlParse gcsurl = .ok u) (hscheme : u.Scheme = "bs" ∨ u.Scheme = "bos")
    (hpath : u.Path = "") :
    splitPath E gcsurl = .panic "slice bounds out of range [1:0]" := by
  unfold splitPath
  simp only [hparse]
  have : ¬ (u.Scheme ≠ "bs" ∧ u.Scheme ≠ "bos") := by
    rintro ⟨h1, h2⟩
    cases hscheme with
    | inl h => exact h1 h
    | inr h => exact h2 h
  simp [this, hpath, sliceFrom1]

/-- C10: on the raw URL `bos://bucket` (scheme bos, host `bucket`, empty
path) `splitPath` does not return: the slice `u.Path[1:]` is out of range and
the call panics, and so does `bos.Object` on that URL. -/
theorem splitPath_panics_on_bucket_url :
    Sample.urlParse "bos://bucket" =
        .ok { Scheme := "bos", Opaque := "", Host := "bucket", Path := "", RawQuery := "",
              Fragment := "" } ∧
      splitPath Sample.env "bos://bucket" = .panic "slice bounds out of range [1:0]" ∧
      (bos.Object Sample.memClient Sample.env "bos://bucket" { remote := [], calls := [] }).1 =
        .panic "slice bounds out of range [1:0]" := by
  decide

/-! ## getURL -/

/-- C8, counterexample: with `public` set and a non-empty public URL, a base
that does not parse makes `getURL` return the parse error, not the public
URL; and with `public` unset a base with an upper-case scheme comes back
re-serialised, not unchanged. -/
theorem getURL_counterexample :
    getURL Sample.env "://bucket/charts" true "https://cdn.example.com/charts" ≠
        .ok "https://cdn.example.com/charts" ∧
      getURL Sample.env "://bucket/charts" true "https://cdn.example.com/charts" =
        .error (.new "parse \"://bucket/charts\": missing protocol scheme") ∧
      getURL Sample.env "BOS://bucket/charts" false "" = .ok "bos://bucket/charts" ∧
      getURL Sample.env "BOS://bucket/charts" false "" ≠ .ok "BOS://bucket/charts" := by
  decide

/-- C8, amended: for every base that `url.Parse` accepts as `u`, `getURL`
returns the public URL verbatim when `public` is set and the public URL is
non-empty; `https://` ++ host ++ `.cdn.bcebos.com/` ++ path when `public` is
set and the public URL is empty; and `u.String()`, the parsed base printed
again, when `public` is unset. -/
theorem getURL_of_parsed (E : Env) (base : String) (pub : Bool) (publicURL : String) (u : URL)
    (hparse : E.urlParse base = .ok u) :
    (pub = true → publicURL ≠ "" → getURL E base pub publicURL = .ok publicURL) ∧
      (pub = true → publicURL = "" →
        getURL E base pub publicURL = .ok ("https://" ++ u.Host ++ ".cdn.bcebos.com/" ++ u.Path)) ∧
      (pub = false → getURL E base pub publicURL = .ok (E.urlString u)) := by
  unfold getURL
  simp only [hparse]
  refine ⟨?_, ?_, ?_⟩
  · intro hp hu
    simp [hp, hu]
  · intro hp hu
    simp [hp, hu]
  · intro hp
    simp [hp]

/-- Witness of `getURL_of_parsed` at the base `bos://bucket/charts`. -/
theorem getURL_of_parsed_witness :
    Sample.env.urlParse "bos://bucket/charts" =
        .ok { Scheme := "bos", Opaque := "", Host := "bucket", Path := "/charts", RawQuery := "",
              Fragment := "" } ∧
      getURL Sample.env "bos://bucket/charts" true "" = .ok "https://bucket.cdn.bcebos.com//charts" ∧
      getURL Sample.env "bos://bucket/charts" false "" = .ok "bos://bucket/charts" :=
  ⟨by decide,
    ((getURL_of_parsed Sample.env "bos://bucket/charts" true ""
        { Scheme := "bos", Opaque := "", Host := "bucket", Path := "/charts", RawQuery := "",
          Fragment := "" } (by decide)).2.1 rfl rfl).trans (by decide),
    ((getURL_of_parsed Sample.env "bos://bucket/charts" false ""
        { Scheme := "bos", Opaque := "", Host := "bucket", Path := "/charts", RawQuery := "",
          Fragment := "" } (by decide)).2.2 rfl).trans (by decide)⟩

/-- A base that does not parse makes `getURL` return the parse error,
whatever the flags. -/
theorem getURL_of_unparsed (E : Env) (base : String) (pub : Bool) (publicURL : String)
    (err : Error) (hparse : E.urlParse base = .error err) :
    getURL E base pub publicURL = .error err := by
  simp [getURL, hparse]

/-! ## Storing the index: no conflict detection -/

/-- The generation kept in the handle plays no part in a store. -/
theorem Repo.uploadIndexFile_ignores_generation {σ : Type} (c : Client σ) (E : Env) (r : Repo)
    (g : Int) (i : IndexFile) (w : World σ) :
    Repo.uploadIndexFile c E { r with indexFileGeneration := g } i w =
      Repo.uploadIndexFile c E r i w := rfl

/-- A store reports `ErrIndexOutOfDate` only if the SDK call
`PutObjectFromBytes` itself returns that very value. -/
theorem Repo.uploadIndexFile_conflict_only_from_client {σ : Type} (c : Client σ) (E : Env)
    (r : Repo) (i : IndexFile) (w w1 : World σ)
    (h : r.uploadIndexFile c E i w = (.done (some .ErrIndexOutOfDate), w1)) :
    ∃ bucket key b s, (c.PutObjectFromBytes bucket key b s).1 = some .ErrIndexOutOfDate := by
  unfold Repo.uploadIndexFile at h
  cases hm : E.marshal (Repo.uploadIndexFile.document E i) with
  | error err => simp [hm, M.pure_apply] at h
  | ok b =>
    simp only [hm] at h
    unfold bos.UploadByte at h
    cases hs : splitPath E r.indexFileURL with
    | panic msg => simp [hs] at h
    | outOfFuel => simp [hs] at h
    | done res =>
      cases res with
      | error err => simp [hs] at h
      | ok p =>
        obtain ⟨bucket, key⟩ := p
        simp only [hs, Prod.mk.injEq, Outcome.done.injEq] at h
        exact ⟨bucket, key, b, _, h.1⟩

/-- C1: a handle loads the index holding foo-1.0.0; another writer then
stores an index that also holds foo-2.0.0; the handle stores the index it
loaded.  The store succeeds (no `ErrIndexOutOfDate`) and the blob is the
handle's document: the other writer's foo-2.0.0 is gone. -/
theorem uploadIndexFile_overwrites_other_writer :
    (Sample.repo.indexFile Sample.memClient Sample.env
        (Sample.store [Sample.record "foo" "1.0.0" "d1"])).1 =
      .done (.ok { APIVersion := "v1", Generated := 0,
                   Entries := [("foo", [Sample.record "foo" "1.0.0" "d1"])] }) ∧
    Sample.docBytes [Sample.record "foo" "2.0.0" "d9", Sample.record "foo" "1.0.0" "d1"] ≠
      Sample.docBytes [Sample.record "foo" "1.0.0" "d1"] ∧
    Sample.repo.uploadIndexFile Sample.memClient Sample.env
        { APIVersion := "v1", Generated := 0,
          Entries := [("foo", [Sample.record "foo" "1.0.0" "d1"])] }
        (Sample.store [Sample.record "foo" "2.0.0" "d9", Sample.record "foo" "1.0.0" "d1"]) =
      (.done none,
        { remote := [(("bucket", "charts/index.yaml"),
            Sample.docBytes [Sample.record "foo" "1.0.0" "d1"])],
          calls := [.UploadByte "bos://bucket/charts/index.yaml"
            (Sample.docBytes [Sample.record "foo" "1.0.0" "d1"])] }) := by
  decide

/-! ## Create -/

/-- C6: on a repository whose index blob is absent `Create` returns the
error of the read, wrapped, and uploads nothing; on a repository whose index
blob has zero bytes `Create` returns nil and uploads nothing.  In both cases
the only request is the read and the store is as it was. -/
theorem Create_writes_nothing_on_fresh_repository :
    Create Sample.memClient Sample.env Sample.repo ({ remote := [], calls := [] } : World Sample.Mem) =
      (.done (some (.wrap (.new "NoSuchKey") "object")),
        ({ remote := [], calls := [.Object "bos://bucket/charts/index.yaml"] } : World Sample.Mem)) ∧
    Create Sample.memClient Sample.env Sample.repo
        ({ remote := [(("bucket", "charts/index.yaml"), [])], calls := [] } : World Sample.Mem) =
      (.done none,
        ({ remote := [(("bucket", "charts/index.yaml"), [])],
           calls := [.Object "bos://bucket/charts/index.yaml"] } : World Sample.Mem)) := by
  constructor <;> decide

/-- Whatever the client, `Create` uploads only when the object was obtained
and reading its body failed; otherwise its only request is the read. -/
theorem Create_uploads_only_on_body_error {σ : Type} (c : Client σ) (E : Env) (r : Repo)
    (w : World σ) :
    (∃ bucket key res err,
        c.BasicGetObject bucket key w.remote = .ok res ∧ res.Body = .error err) ∨
      (Create c E r w).2 = w.record (.Object r.indexFileURL) := by
  show _ ∨ (M.bind (bos.Object c E r.indexFileURL) _ w).2 = _
  unfold M.bind bos.Object
  cases h : splitPath E r.indexFileURL with
  | panic msg => simp
  | outOfFuel => simp
  | done res =>
    cases res with
    | error err => simp [M.pure_apply]
    | ok p =>
      obtain ⟨bucket, key⟩ := p
      simp only
      cases hg : c.BasicGetObject bucket key (w.record (.Object r.indexFileURL)).remote with
      | error err => simp [M.pure_apply]
      | ok res =>
        cases hb : res.Body with
        | error err => exact Or.inl ⟨bucket, key, res, err, hg, hb⟩
        | ok b =>
          right
          simp only [hb]
          split <;> simp [M.pure_apply]

/-- `Create` on a non-empty index blob returns nil and its only request is
the read. -/
theorem Create_nonempty_noop {σ : Type} (c : Client σ) (E : Env) (r : Repo) (w : World σ)
    (bucket key : String) (res : GetObjectResult) (body : Bytes)
    (hsplit : splitPath E r.indexFileURL = .done (.ok (bucket, key)))
    (hget : c.BasicGetObject bucket key w.remote = .ok res) (hbody : res.Body = .ok body)
    (hlen : 0 < body.length) :
    Create c E r w = (.done none, w.record (.Object r.indexFileURL)) := by
  show M.bind (bos.Object c E r.indexFileURL) _ w = _
  have hget1 : c.BasicGetObject bucket key (w.record (.Object r.indexFileURL)).remote = .ok res :=
    hget
  simp [M.bind, bos.Object, hsplit, hget1, hbody, hlen, M.pure_apply]

/-! ## PushChart -/

/-- A call of `updateIndexFile` reports `ErrIndexOutOfDate` only if the SDK
call `PutObjectFromBytes` itself returns that very value. -/
theorem Repo.updateIndexFile_conflict_only_from_client {σ : Type} (c : Client σ) (E : Env)
    (r : Repo) (i : IndexFile) (chartpath : String) (chart : Metadata) (pub : Bool)
    (publicURL : String) (w w1 : World σ)
    (h : r.updateIndexFile c E i chartpath chart pub publicURL w =
      (.done (some .ErrIndexOutOfDate), w1)) :
    ∃ bucket key b s, (c.PutObjectFromBytes bucket key b s).1 = some .ErrIndexOutOfDate := by
  unfold Repo.updateIndexFile at h
  cases hd : E.digestFile chartpath with
  | error err => simp [hd, M.pure_apply] at h
  | ok hash =>
    simp only [hd] at h
    cases he : r.entry with
    | none => simp [he, M.panic] at h
    | some entry =>
      simp only [he] at h
      cases hu : getURL E entry.URL pub publicURL with
      | error err => simp [hu, M.pure_apply] at h
      | ok url =>
        simp only [hu] at h
        exact Repo.uploadIndexFile_conflict_only_from_client c E r _ w w1 h

/-- With a client whose `PutObjectFromBytes` never returns the value
`ErrIndexOutOfDate`, the flag `retry` of `PushChart` changes nothing: the
retry loop is never entered. -/
theorem PushChart_retry_unused {σ : Type} (c : Client σ) (E : Env) (fuel : Nat) (r : Repo)
    (chartpath : String) (force pub : Bool) (publicURL : String) (w : World σ)
    (hclient : ∀ bucket key b s,
      (c.PutObjectFromBytes bucket key b s).1 ≠ some .ErrIndexOutOfDate) :
    r.PushChart c E fuel chartpath force true pub publicURL w =
      r.PushChart c E fuel chartpath force false pub publicURL w := by
  unfold Repo.PushChart
  show M.bind (r.indexFile c E) _ w = M.bind (r.indexFile c E) _ w
  unfold M.bind
  rcases hl : r.indexFile c E w with ⟨o, w1⟩
  cases o with
  | panic msg => rfl
  | outOfFuel => rfl
  | done res =>
    cases res with
    | error err => rfl
    | ok i =>
      simp only
      cases hc : E.loaderLoad chartpath with
      | error err => rfl
      | ok chart =>
        simp only
        split
        · rfl
        · show M.bind (r.updateIndexFile c E i chartpath chart pub publicURL) _ w1 =
            M.bind (r.updateIndexFile c E i chartpath chart pub publicURL) _ w1
          unfold M.bind
          rcases hu : r.updateIndexFile c E i chartpath chart pub publicURL w1 with ⟨o2, w2⟩
          cases o2 with
          | panic msg => rfl
          | outOfFuel => rfl
          | done err =>
            have hne : err ≠ some .ErrIndexOutOfDate := by
              intro e
              subst e
              obtain ⟨bucket, key, b, s, hs⟩ :=
                Repo.updateIndexFile_conflict_only_from_client c E r i chartpath chart pub
                  publicURL w1 w2 hu
              exact hclient bucket key b s hs
            simp [hne]

/-- An index with a record of `name` at `version` answers `Has` with true. -/
theorem IndexFile.Has_of_mem (i : IndexFile) (name version : String) (vs : List ChartVersion)
    (v : ChartVersion) (hname : i.Entries.get name = some vs) (hmem : v ∈ vs)
    (hver : v.Version = version) : i.Has name version = true := by
  unfold IndexFile.Has IndexFile.Get
  simp only [hname]
  rw [List.find?_isSome]
  exact ⟨v, hmem, by simp [hver]⟩

/-- C2: when the loaded index has a record with the name and the version of
the chart, `PushChart` without force returns the already-indexed error,
whatever `retry` is (and whatever the loop budget); the world it leaves is
the world right after the load: the remote state is unchanged and the only
request made is the read of the index (no `UploadByte`, no `UploadFile`). -/
theorem PushChart_already_indexed {σ : Type} (c : Client σ) (E : Env) (fuel : Nat) (r : Repo)
    (chartpath : String) (retry pub : Bool) (publicURL : String) (w w1 : World σ)
    (index : IndexFile) (chart : Metadata) (vs : List ChartVersion) (v : ChartVersion)
    (hload : r.indexFile c E w = (.done (.ok index), w1))
    (hchart : E.loaderLoad chartpath = .ok chart)
    (hname : index.Entries.get chart.Name = some vs)
    (hmem : v ∈ vs) (hver : v.Version = chart.Version) :
    r.PushChart c E fuel chartpath false retry pub publicURL w =
        (.done (some (.new ("chart " ++ chart.Name ++ "-" ++ chart.Version ++
          " already indexed. Use --force to still upload the chart"))), w1) ∧
      w1.remote = w.remote ∧ w1.calls = w.calls ++ [.Object r.indexFileURL] := by
  have hw : w1 = w.record (.Object r.indexFileURL) := by
    have := Repo.indexFile_world c E r w
    rw [hload] at this
    exact this
  refine ⟨?_, by rw [hw]; rfl, by rw [hw]; rfl⟩
  unfold Repo.PushChart
  rw [M.bind_done hload]
  simp only [hchart]
  have hhas := IndexFile.Has_of_mem index chart.Name chart.Version vs v hname hmem hver
  simp [hhas, M.pure_apply]

/-- Witness of `PushChart_already_indexed`: foo-1.0.0 pushed without force,
with retry, on an index that holds foo-1.0.0. -/
theorem PushChart_already_indexed_witness :
    Sample.repo.PushChart Sample.memClient Sample.env 3 "/tmp/foo-1.0.0.tgz" false true false ""
        (Sample.store [Sample.record "foo" "1.0.0" "d1"]) =
      (.done (some (.new
          "chart foo-1.0.0 already indexed. Use --force to still upload the chart")),
        { remote := (Sample.store [Sample.record "foo" "1.0.0" "d1"]).remote,
          calls := [.Object "bos://bucket/charts/index.yaml"] }) :=
  (PushChart_already_indexed Sample.memClient Sample.env 3 Sample.repo "/tmp/foo-1.0.0.tgz"
    true false "" (Sample.store [Sample.record "foo" "1.0.0" "d1"])
    { remote := (Sample.store [Sample.record "foo" "1.0.0" "d1"]).remote,
      calls := [.Object "bos://bucket/charts/index.yaml"] }
    { APIVersion := "v1", Generated := 0,
      Entries := [("foo", [Sample.record "foo" "1.0.0" "d1"])] }
    { Name := "foo", Version := "1.0.0", Description := "" }
    [Sample.record "foo" "1.0.0" "d1"] (Sample.record "foo" "1.0.0" "d1")
    (by decide) (by decide) (by decide) (by decide) (by decide)).1

/-! ## The map of entries -/

theorem EntryMap.get_set_self (m : EntryMap) (name : String) (vs : List ChartVersion) :
    (m.set name vs).get name = some vs := by
  induction m with
  | nil => simp [EntryMap.set, EntryMap.get]
  | cons kv rest ih =>
    obtain ⟨k, old⟩ := kv
    by_cases h : k = name
    · simp [EntryMap.set, EntryMap.get, h]
    · simp [EntryMap.set, EntryMap.get, h, ih]

theorem EntryMap.get_set_ne (m : EntryMap) (name other : String) (vs : List ChartVersion)
    (hne : other ≠ name) : (m.set name vs).get other = m.get other := by
  induction m with
  | nil =>
    have : ¬ name = other := fun e => hne e.symm
    simp [EntryMap.set, EntryMap.get, this]
  | cons kv rest ih =>
    obtain ⟨k, old⟩ := kv
    by_cases h : k = name
    · have : ¬ name = other := fun e => hne e.symm
      subst h
      simp [EntryMap.set, EntryMap.get, this]
    · by_cases h2 : k = other
      · subst h2
        simp [EntryMap.set, EntryMap.get, h]
      · simp [EntryMap.set, EntryMap.get, h, h2, ih]

theorem EntryMap.get_delete_self (m : EntryMap) (name : String) :
    (m.delete name).get name = none := by
  induction m with
  | nil => simp [EntryMap.delete, EntryMap.get]
  | cons kv rest ih =>
    obtain ⟨k, old⟩ := kv
    simp only [EntryMap.delete, ne_eq, decide_not] at ih ⊢
    by_cases h : k = name
    · simp [List.filter_cons, h, ih]
    · simp [List.filter_cons, h, EntryMap.get, ih]

theorem EntryMap.get_delete_ne (m : EntryMap) (name other : String) (hne : other ≠ name) :
    (m.delete name).get other = m.get other := by
  induction m with
  | nil => simp [EntryMap.delete, EntryMap.get]
  | cons kv rest ih =>
    obtain ⟨k, old⟩ := kv
    simp only [EntryMap.delete, ne_eq, decide_not] at ih ⊢
    by_cases h : k = name
    · have : ¬ name = other := fun e => hne e.symm
      subst h
      simp [List.filter_cons, EntryMap.get, ih, this]
    · by_cases h2 : k = other
      · subst h2
        simp [List.filter_cons, h, EntryMap.get]
      · simp [List.filter_cons, h, EntryMap.get, h2, ih]

theorem EntryMap.get_map (m : EntryMap) (f : List ChartVersion → List ChartVersion)
    (name : String) :
    EntryMap.get (m.map (fun kv => (kv.1, f kv.2))) name = (m.get name).map f := by
  induction m with
  | nil => simp [EntryMap.get]
  | cons kv rest ih =>
    obtain ⟨k, old⟩ := kv
    by_cases h : k = name
    · simp [EntryMap.get, h]
    · simp [EntryMap.get, h, ih]

/-- What a stored document holds for a name: the sorted versions of the index
handed to `uploadIndexFile`. -/
theorem Repo.uploadIndexFile.document_get (E : Env) (i : IndexFile) (name : String) :
    (Repo.uploadIndexFile.document E i).Entries.get name =
      (i.Entries.get name).map E.sortVersions := by
  unfold Repo.uploadIndexFile.document IndexFile.SortEntries
  exact EntryMap.get_map i.Entries E.sortVersions name

/-! ## Swap with the last and truncate -/

theorem swapRemove_perm (vs : List ChartVersion) (i : Nat) (h : i < vs.length) :
    (swapRemove vs i).Perm (vs.eraseIdx i) := by
  unfold swapRemove
  rcases List.eq_nil_or_concat vs with hnil | ⟨init, last, hvs⟩
  · subst hnil
    simp at h
  · subst hvs
    simp only [List.concat_eq_append, List.length_append, List.length_singleton] at h
    simp only [List.concat_eq_append, List.getLast?_concat]
    by_cases hi : i < init.length
    · rw [List.set_append_left _ _ hi, List.dropLast_concat, List.eraseIdx_append_of_lt_length hi]
      clear h
      induction init generalizing i with
      | nil => simp at hi
      | cons x rest ih =>
        cases i with
        | zero =>
          simp only [List.set_cons_zero, List.eraseIdx_cons_zero]
          exact (List.perm_append_singleton last rest).symm
        | succ j =>
          simp only [List.set_cons_succ, List.eraseIdx_cons_succ, List.cons_append]
          exact List.Perm.cons x (ih j (by simpa using hi))
    · have hi2 : i = init.length := by omega
      subst hi2
      rw [List.set_append_right _ _ (le_refl _)]
      simp [List.eraseIdx_append_of_length_le]

/-- In a list whose version strings are pairwise distinct, erasing the record
at the position of `version` is filtering `version` out. -/
theorem eraseIdx_eq_filter (version : String) :
    ∀ (vs : List ChartVersion) (k : Nat) (x : ChartVersion),
      (vs.map ChartVersion.Version).Nodup → vs[k]? = some x → x.Version = version →
      vs.eraseIdx k = vs.filter (fun y => decide (y.Version ≠ version))
  | [], k, x, _, hk, _ => by simp at hk
  | y :: rest, 0, x, hnd, hk, hx => by
    simp only [List.getElem?_cons_zero, Option.some.injEq] at hk
    subst hk
    simp only [List.map_cons, List.nodup_cons, List.mem_map, not_exists, not_and] at hnd
    have hall : ∀ z ∈ rest, z.Version ≠ version := fun z hz e => hnd.1 z hz (e.trans hx.symm)
    simp only [List.eraseIdx_cons_zero, List.filter_cons, hx, ne_eq, not_true_eq_false,
      decide_False, Bool.false_eq_true, ↓reduceIte]
    symm
    rw [List.filter_eq_self]
    intro z hz
    simpa using hall z hz
  | y :: rest, k + 1, x, hnd, hk, hx => by
    simp only [List.getElem?_cons_succ] at hk
    simp only [List.map_cons, List.nodup_cons, List.mem_map, not_exists, not_and] at hnd
    have hy : y.Version ≠ version := by
      intro e
      exact hnd.1 x (List.getElem?_mem hk) (hx.trans e.symm)
    simp only [List.eraseIdx_cons_succ, List.filter_cons, ne_eq, hy, not_false_eq_true,
      decide_True, ↓reduceIte]
    rw [eraseIdx_eq_filter version rest k x hnd.2 hk hx]

/-! ## The loops -/

/-- The loop of `RemoveChart` on a non-empty version that no record has:
nothing is collected and nothing is assigned. -/
theorem Repo.RemoveChart.loop_absent (r : Repo) (name version : String)
    (vs : List ChartVersion) (hne : version ≠ "") :
    ∀ (rest : List ChartVersion) (i : Nat) (urls : List String),
      (∀ x ∈ rest, x.Version ≠ version) →
      Repo.RemoveChart.loop r name version vs rest i urls = .done (urls, none)
  | [], _, _, _ => rfl
  | y :: rest, i, urls, h => by
    have hy : ¬ version = y.Version := fun e => h y (List.mem_cons_self _ _) e.symm
    unfold Repo.RemoveChart.loop
    simp only [hne, hy, or_self, ↓reduceIte]
    exact Repo.RemoveChart.loop_absent r name version vs hne rest (i + 1) urls
      (fun x hx => h x (List.mem_cons_of_mem _ hx))

/-- The loop of `RemoveChart` on a non-empty version that some record has:
one URL is collected, that of the version, and the slice assigned is the swap
removal at the first record of that version. -/
theorem Repo.RemoveChart.loop_found (r : Repo) (entry : Entry) (name version : String)
    (vs : List ChartVersion) (hentry : r.entry = some entry) (hne : version ≠ "") :
    ∀ (rest : List ChartVersion) (i : Nat) (urls : List String),
      (∃ x ∈ rest, x.Version = version) →
      Repo.RemoveChart.loop r name version vs rest i urls =
        .done (urls ++ [entry.URL ++ "/" ++ name ++ "-" ++ version ++ ".tgz"],
          some (swapRemove vs (i + rest.findIdx (fun x => decide (x.Version = version)))))
  | [], _, _, h => by
    obtain ⟨x, hx, _⟩ := h
    simp at hx
  | y :: rest, i, urls, h => by
    unfold Repo.RemoveChart.loop
    by_cases hy : version = y.Version
    · have hy2 : y.Version = version := hy.symm
      simp [hentry, hy2, List.findIdx_cons]
    · have hy2 : ¬ y.Version = version := fun e => hy e.symm
      have hrest : ∃ x ∈ rest, x.Version = version := by
        obtain ⟨x, hx, hxv⟩ := h
        rcases List.mem_cons.1 hx with rfl | hx2
        · exact absurd hxv hy2
        · exact ⟨x, hx2, hxv⟩
      simp only [hne, hy, or_self, ↓reduceIte]
      rw [Repo.RemoveChart.loop_found r entry name version vs hentry hne rest (i + 1) urls hrest]
      simp [List.findIdx_cons, hy2]
      congr 1
      omega

/-- The loop of `RemoveChart` on the empty version, when no record has an
empty version string: the URL of every record is collected, in order, and
nothing is assigned. -/
theorem Repo.RemoveChart.loop_all (r : Repo) (entry : Entry) (name : String)
    (vs : List ChartVersion) (hentry : r.entry = some entry) :
    ∀ (rest : List ChartVersion) (i : Nat) (urls : List String),
      (∀ x ∈ rest, x.Version ≠ "") →
      Repo.RemoveChart.loop r name "" vs rest i urls =
        .done (urls ++ rest.map (fun x => entry.URL ++ "/" ++ name ++ "-" ++ x.Version ++ ".tgz"),
          none)
  | [], _, _, _ => by simp [Repo.RemoveChart.loop]
  | y :: rest, i, urls, h => by
    have hy : ¬ "" = y.Version := fun e => h y (List.mem_cons_self _ _) e.symm
    unfold Repo.RemoveChart.loop
    simp only [true_or, ↓reduceIte, hentry, hy]
    rw [Repo.RemoveChart.loop_all r entry name vs hentry rest (i + 1) _
      (fun x hx => h x (List.mem_cons_of_mem _ hx))]
    simp

/-- The loop of `updateIndexFile` when some record has the version: the slice
assigned is the swap removal at the first record of that version. -/
theorem Repo.updateIndexFile.loop_first_match (version : String) (vs : List ChartVersion) :
    ∀ (rest : List ChartVersion) (i : Nat),
      (∃ x ∈ rest, x.Version = version) →
      Repo.updateIndexFile.loop version vs rest i =
        some (swapRemove vs (i + rest.findIdx (fun x => decide (x.Version = version))))
  | [], _, h => by
    obtain ⟨x, hx, _⟩ := h
    simp at hx
  | y :: rest, i, h => by
    unfold Repo.updateIndexFile.loop
    by_cases hy : y.Version = version
    · simp [hy, List.findIdx_cons]
    · have hrest : ∃ x ∈ rest, x.Version = version := by
        obtain ⟨x, hx, hxv⟩ := h
        rcases List.mem_cons.1 hx with rfl | hx2
        · exact absurd hxv hy
        · exact ⟨x, hx2, hxv⟩
      simp only [hy, ↓reduceIte]
      rw [Repo.updateIndexFile.loop_first_match version vs rest (i + 1) hrest]
      simp [List.findIdx_cons, hy]
      congr 1
      omega

/-- Swap removal at the first record of `version`, in a list with pairwise
distinct version strings, leaves the records of the other versions. -/
theorem swapRemove_findIdx_perm (version : String) (vs : List ChartVersion)
    (hnodup : (vs.map ChartVersion.Version).Nodup) (hmem : ∃ x ∈ vs, x.Version = version) :
    (swapRemove vs (vs.findIdx (fun x => decide (x.Version = version)))).Perm
      (vs.filter (fun y => decide (y.Version ≠ version))) := by
  have hex : ∃ x ∈ vs, (fun x => decide (ChartVersion.Version x = version)) x = true := by
    obtain ⟨x, hx, hxv⟩ := hmem
    exact ⟨x, hx, by simp [hxv]⟩
  have hlt := List.findIdx_lt_length_of_exists hex
  have hget : vs[vs.findIdx (fun x => decide (x.Version = version))]? =
      some (vs[vs.findIdx (fun x => decide (x.Version = version))]) :=
    List.getElem?_eq_getElem hlt
  have hp : (vs[vs.findIdx (fun x => decide (x.Version = version))]).Version = version := by
    have := List.findIdx_of_getElem?_eq_some hget
    simpa using this
  rw [← eraseIdx_eq_filter version vs _ _ hnodup hget hp]
  exact swapRemove_perm vs _ hlt

/-! ## RemoveChart -/

/-- C9: when the loaded index has `name` but no record of `name` with the
non-empty version `v`, and the store accepts the write, `RemoveChart`
returns nil (no not-found error); it stores a document whose records are,
for every name, those of the loaded index (sorted again, stamped with the
current time), and it requests no deletion: the requests are the read and
the write of the index. -/
theorem RemoveChart_absent_version {σ : Type} (c : Client σ) (E : Env) (r : Repo)
    (name v : String) (retry : Bool) (fuel : Nat) (w w1 w2 : World σ) (index : IndexFile)
    (vs : List ChartVersion) (b : Bytes)
    (hsort : ∀ l, (E.sortVersions l).Perm l)
    (hload : r.indexFile c E w = (.done (.ok index), w1))
    (hname : index.Entries.get name = some vs)
    (hv : v ≠ "")
    (habsent : ∀ x ∈ vs, x.Version ≠ v)
    (hmarshal : E.marshal
      (Repo.uploadIndexFile.document E (Repo.RemoveChart.newIndex index name v none)) = .ok b)
    (hstore : bos.UploadByte c E r.indexFileURL b w1 = (.done none, w2)) :
    r.RemoveChart c E name v retry (fuel + 1) w = (.done none, w2) ∧
      w2.calls = w.calls ++ [.Object r.indexFileURL, .UploadByte r.indexFileURL b] ∧
      (∀ n, (((Repo.uploadIndexFile.document E
          (Repo.RemoveChart.newIndex index name v none)).Entries.get n).getD []).Perm
        ((index.Entries.get n).getD [])) ∧
      (Repo.uploadIndexFile.document E (Repo.RemoveChart.newIndex index name v none)).Generated =
        E.now := by
  have hw : w1 = w.record (.Object r.indexFileURL) := by
    have := Repo.indexFile_world c E r w
    rw [hload] at this
    exact this
  have hup : r.uploadIndexFile c E (Repo.RemoveChart.newIndex index name v none) w1 =
      (.done none, w2) := by
    unfold Repo.uploadIndexFile
    simp only [hmarshal]
    exact hstore
  refine ⟨?_, ?_, ?_, rfl⟩
  · unfold Repo.RemoveChart
    rw [M.bind_done hload]
    simp only [hname]
    rw [Repo.RemoveChart.loop_absent r name v vs hv vs 0 [] habsent]
    simp only
    rw [M.bind_done hup]
    simp [Repo.RemoveChart.deleteAll, M.pure_apply]
  · have := bos.UploadByte_calls c E r.indexFileURL b w1
    rw [hstore] at this
    simp only at this
    rw [this, hw]
    simp [World.record]
  · intro n
    rw [Repo.uploadIndexFile.document_get]
    unfold Repo.RemoveChart.newIndex
    simp only [hv, false_or, hname, Option.getD_some]
    by_cases hlen : vs.length = 0
    · have hvs : vs = [] := List.length_eq_zero.1 hlen
      subst hvs
      simp only [List.length_nil, ↓reduceIte]
      by_cases hn : n = name
      · subst hn
        simp [EntryMap.get_delete_self, hname]
      · rw [EntryMap.get_delete_ne _ _ _ hn]
        cases index.Entries.get n with
        | none => simp
        | some l => simpa using hsort l
    · simp only [hlen, ↓reduceIte]
      cases index.Entries.get n with
      | none => simp
      | some l => simpa using hsort l

/-- A deletion of a well-formed URL that the SDK accepts returns nil, leaves
the remote state the SDK call returns and records one `Delete` request. -/
theorem bos.Delete_accepted {σ : Type} (c : Client σ) (E : Env) (path bucket key : String)
    (w : World σ) (hsplit : splitPath E path = .done (.ok (bucket, key)))
    (hdel : (c.DeleteObject bucket key w.remote).1 = none) :
    bos.Delete c E path w =
      (.done none,
        { remote := (c.DeleteObject bucket key w.remote).2, calls := w.calls ++ [.Delete path] }) := by
  unfold bos.Delete
  simp [hsplit, World.record, hdel]

/-- C4, counterexample: on an index holding foo-1.1.0 and foo-1.0.0, with a
store that accepts the write of the index and refuses deletions,
`RemoveChart("foo", "1.0.0")` stores the index without foo-1.0.0 and returns
the error of the deletion: no blob is deleted, the archive of foo-1.0.0 is
still in the store. -/
theorem RemoveChart_one_version_counterexample :
    Sample.repo.RemoveChart Sample.noDeleteClient Sample.env "foo" "1.0.0" false 1
        (Sample.storeWithArchives
          [Sample.record "foo" "1.1.0" "d1", Sample.record "foo" "1.0.0" "d0"]) =
      (.done (some (.wrap (.new "AccessDenied") "delete")),
        { remote := [(("bucket", "charts/index.yaml"),
              Sample.docBytes [Sample.record "foo" "1.1.0" "d1"]),
            Sample.archive "1.1.0", Sample.archive "1.0.0"],
          calls := [.Object "bos://bucket/charts/index.yaml",
            .UploadByte "bos://bucket/charts/index.yaml"
              (Sample.docBytes [Sample.record "foo" "1.1.0" "d1"]),
            .Delete "bos://bucket/charts/foo-1.0.0.tgz"] }) := by
  decide

/-- C4, amended: when the versions of `name` in the loaded index are pairwise
distinct and include the non-empty version `v`, the store accepts the write
of the index and then accepts the deletion of the archive of `v`
(`<repository URL>/<name>-<v>.tgz`, a well-formed bos URL naming `key` in
`bucket`), `RemoveChart` stores a document in which the records of `name` are
the former ones without `v` (the key is absent exactly when none remain) and
every other name has the same key and the same records (sorted again); it
then deletes exactly one blob, that archive, and returns nil: the remote
state is the one `DeleteObject(bucket, key)` returns on the state left by the
write, and the requests are the read, the write and that one deletion. -/
theorem RemoveChart_one_version {σ : Type} (c : Client σ) (E : Env) (r : Repo) (entry : Entry)
    (name v : String) (retry : Bool) (fuel : Nat) (w w1 w2 : World σ) (index : IndexFile)
    (vs : List ChartVersion) (b : Bytes) (bucket key : String)
    (hsort : ∀ l, (E.sortVersions l).Perm l)
    (hload : r.indexFile c E w = (.done (.ok index), w1))
    (hname : index.Entries.get name = some vs)
    (hnodup : (vs.map ChartVersion.Version).Nodup)
    (hmem : v ∈ vs.map ChartVersion.Version)
    (hv : v ≠ "")
    (hentry : r.entry = some entry)
    (hmarshal : E.marshal (Repo.uploadIndexFile.document E
      (Repo.RemoveChart.newIndex index name v
        (some (swapRemove vs (vs.findIdx (fun x => decide (x.Version = v))))))) = .ok b)
    (hstore : bos.UploadByte c E r.indexFileURL b w1 = (.done none, w2))
    (hsplit : splitPath E (entry.URL ++ "/" ++ name ++ "-" ++ v ++ ".tgz") =
      .done (.ok (bucket, key)))
    (hdelete : (c.DeleteObject bucket key w2.remote).1 = none) :
    (((Repo.uploadIndexFile.document E (Repo.RemoveChart.newIndex index name v
        (some (swapRemove vs (vs.findIdx (fun x => decide (x.Version = v))))))).Entries.get
          name).getD []).Perm (vs.filter (fun x => decide (x.Version ≠ v))) ∧
      ((Repo.uploadIndexFile.document E (Repo.RemoveChart.newIndex index name v
        (some (swapRemove vs (vs.findIdx (fun x => decide (x.Version = v))))))).Entries.get
          name = none ↔ vs.filter (fun x => decide (x.Version ≠ v)) = []) ∧
      (∀ n, n ≠ name →
        (Repo.uploadIndexFile.document E (Repo.RemoveChart.newIndex index name v
          (some (swapRemove vs (vs.findIdx (fun x => decide (x.Version = v))))))).Entries.get n =
            (index.Entries.get n).map E.sortVersions ∧
        ((index.Entries.get n).map E.sortVersions = none ↔ index.Entries.get n = none) ∧
        (((index.Entries.get n).map E.sortVersions).getD []).Perm
          ((index.Entries.get n).getD [])) ∧
      r.RemoveChart c E name v retry (fuel + 1) w =
        (.done none,
          { remote := (c.DeleteObject bucket key w2.remote).2,
            calls := w.calls ++ [.Object r.indexFileURL, .UploadByte r.indexFileURL b,
              .Delete (entry.URL ++ "/" ++ name ++ "-" ++ v ++ ".tgz")] }) := by
  have hw : w1 = w.record (.Object r.indexFileURL) := by
    have := Repo.indexFile_world c E r w
    rw [hload] at this
    exact this
  have hex : ∃ x ∈ vs, x.Version = v := by
    obtain ⟨x, hx, hxv⟩ := List.mem_map.1 hmem
    exact ⟨x, hx, hxv⟩
  have hperm := swapRemove_findIdx_perm v vs hnodup hex
  have hup : r.uploadIndexFile c E (Repo.RemoveChart.newIndex index name v
      (some (swapRemove vs (vs.findIdx (fun x => decide (x.Version = v)))))) w1 =
      (.done none, w2) := by
    unfold Repo.uploadIndexFile
    simp only [hmarshal]
    exact hstore
  have hcalls2 : w2.calls = w.calls ++ [.Object r.indexFileURL, .UploadByte r.indexFileURL b] := by
    have := bos.UploadByte_calls c E r.indexFileURL b w1
    rw [hstore] at this
    simp only at this
    rw [this, hw]
    simp [World.record]
  have hrun : r.RemoveChart c E name v retry (fuel + 1) w =
      (.done none,
        { remote := (c.DeleteObject bucket key w2.remote).2,
          calls := w.calls ++ [.Object r.indexFileURL, .UploadByte r.indexFileURL b,
            .Delete (entry.URL ++ "/" ++ name ++ "-" ++ v ++ ".tgz")] }) := by
    unfold Repo.RemoveChart
    rw [M.bind_done hload]
    simp only [hname]
    rw [Repo.RemoveChart.loop_found r entry name v vs hentry hv vs 0 [] hex]
    simp only [Nat.zero_add, List.nil_append]
    rw [M.bind_done hup]
    simp only [reduceCtorEq, false_and, ↓reduceIte, Repo.RemoveChart.deleteAll]
    rw [M.bind_done (bos.Delete_accepted c E _ bucket key w2 hsplit hdelete)]
    simp [M.pure_apply, hcalls2]
  have hgetname : (Repo.RemoveChart.newIndex index name v
      (some (swapRemove vs (vs.findIdx (fun x => decide (x.Version = v)))))).Entries.get name =
      if swapRemove vs (vs.findIdx (fun x => decide (x.Version = v))) = [] then none
      else some (swapRemove vs (vs.findIdx (fun x => decide (x.Version = v)))) := by
    unfold Repo.RemoveChart.newIndex
    simp only [hv, false_or, EntryMap.get_set_self, Option.getD_some, List.length_eq_zero]
    split
    · exact EntryMap.get_delete_self _ _
    · exact EntryMap.get_set_self _ _ _
  have hgetother : ∀ n, n ≠ name → (Repo.RemoveChart.newIndex index name v
      (some (swapRemove vs (vs.findIdx (fun x => decide (x.Version = v)))))).Entries.get n =
      index.Entries.get n := by
    intro n hn
    unfold Repo.RemoveChart.newIndex
    simp only [hv, false_or, EntryMap.get_set_self, Option.getD_some, List.length_eq_zero]
    split
    · rw [EntryMap.get_delete_ne _ _ _ hn, EntryMap.get_set_ne _ _ _ _ hn]
    · exact EntryMap.get_set_ne _ _ _ _ hn
  refine ⟨?_, ?_, ?_, hrun⟩
  · rw [Repo.uploadIndexFile.document_get, hgetname]
    split
    · rename_i hnil
      rw [hnil] at hperm
      simpa using hperm
    · simpa using (hsort _).trans hperm
  · rw [Repo.uploadIndexFile.document_get, hgetname]
    split
    · rename_i hnil
      rw [hnil] at hperm
      simpa using hperm
    · rename_i hnil
      simp only [Option.map_some', reduceCtorEq, false_iff]
      intro hf
      rw [hf] at hperm
      exact hnil (List.perm_nil.1 hperm)
  · intro n hn
    refine ⟨?_, ?_, ?_⟩
    · rw [Repo.uploadIndexFile.document_get, hgetother n hn]
    · simp
    · cases index.Entries.get n with
      | none => simp
      | some l => simpa using hsort l

/-- C5, counterexample: on an index holding foo-1.1.0 and foo-1.0.0, with a
store that accepts the write of the index and refuses deletions,
`RemoveChart("foo", "")` stores the index without foo, requests the deletion
of foo-1.1.0 only and returns that error: the archive URL of foo-1.0.0 is
never deleted. -/
theorem RemoveChart_all_versions_counterexample :
    Sample.repo.RemoveChart Sample.noDeleteClient Sample.env "foo" "" false 1
        (Sample.store [Sample.record "foo" "1.1.0" "d1", Sample.record "foo" "1.0.0" "d0"]) =
      (.done (some (.wrap (.new "AccessDenied") "delete")),
        { remote := [(("bucket", "charts/index.yaml"), [])],
          calls := [.Object "bos://bucket/charts/index.yaml",
            .UploadByte "bos://bucket/charts/index.yaml" [],
            .Delete "bos://bucket/charts/foo-1.1.0.tgz"] }) ∧
    Call.Delete "bos://bucket/charts/foo-1.0.0.tgz" ∉
      (Sample.repo.RemoveChart Sample.noDeleteClient Sample.env "foo" "" false 1
        (Sample.store [Sample.record "foo" "1.1.0" "d1", Sample.record "foo" "1.0.0" "d0"])).2.calls := by
  constructor <;> decide

/-- The deletion loop on the archives of the records `l`, each at a
well-formed URL, when the SDK accepts every deletion on the state left by the
deletions before it: it returns nil, the remote state is the one the SDK
calls leave in turn, and one `Delete` request is recorded per record. -/
theorem Repo.RemoveChart.deleteAll_accepted {σ : Type} (c : Client σ) (E : Env)
    (url : ChartVersion → String) (loc : ChartVersion → String × String) :
    ∀ (l : List ChartVersion) (w : World σ),
      (∀ x ∈ l, splitPath E (url x) = .done (.ok (loc x))) →
      (∀ i x, l[i]? = some x →
        (c.DeleteObject (loc x).1 (loc x).2
          ((l.take i).foldl (fun s y => (c.DeleteObject (loc y).1 (loc y).2 s).2) w.remote)).1 =
            none) →
      Repo.RemoveChart.deleteAll c E (l.map url) w =
        (.done none,
          { remote := l.foldl (fun s y => (c.DeleteObject (loc y).1 (loc y).2 s).2) w.remote,
            calls := w.calls ++ l.map (fun x => Call.Delete (url x)) })
  | [], w, _, _ => by simp [Repo.RemoveChart.deleteAll, M.pure_apply]
  | x :: rest, w, hsplit, hacc => by
    have hs : splitPath E (url x) = .done (.ok ((loc x).1, (loc x).2)) :=
      hsplit x (List.mem_cons_self _ _)
    have h0 : (c.DeleteObject (loc x).1 (loc x).2 w.remote).1 = none := by
      simpa using hacc 0 x (by simp)
    have hd := bos.Delete_accepted c E (url x) (loc x).1 (loc x).2 w hs h0
    have ih := Repo.RemoveChart.deleteAll_accepted c E url loc rest
      { remote := (c.DeleteObject (loc x).1 (loc x).2 w.remote).2,
        calls := w.calls ++ [.Delete (url x)] }
      (fun y hy => hsplit y (List.mem_cons_of_mem _ hy))
      (fun i y hy => by simpa using hacc (i + 1) y (by simpa using hy))
    simp only [List.map_cons, Repo.RemoveChart.deleteAll]
    rw [M.bind_done hd]
    simp only
    rw [ih]
    simp

/-- C5, amended: when the loaded index has `name`, none of its records of
`name` has an empty version string, the store accepts the write of the index
and then accepts, one after the other in index order, the deletion of the
archive of every record of `name` (each at `<repository URL>/<name>-<version>.tgz`,
a well-formed bos URL naming the blob `loc`), `RemoveChart(name, "")` stores a
document without the key `name`, deletes exactly these archives, one per
former version and none missing, and returns nil: the remote state is the one
the successive `DeleteObject` calls leave on the state left by the write, and
the requests are the read, the write and one deletion per record. -/
theorem RemoveChart_all_versions {σ : Type} (c : Client σ) (E : Env) (r : Repo) (entry : Entry)
    (name : String) (retry : Bool) (fuel : Nat) (w w1 w2 : World σ) (index : IndexFile)
    (vs : List ChartVersion) (b : Bytes) (loc : ChartVersion → String × String)
    (hload : r.indexFile c E w = (.done (.ok index), w1))
    (hname : index.Entries.get name = some vs)
    (hnonempty : ∀ x ∈ vs, x.Version ≠ "")
    (hentry : r.entry = some entry)
    (hmarshal : E.marshal
      (Repo.uploadIndexFile.document E (Repo.RemoveChart.newIndex index name "" none)) = .ok b)
    (hstore : bos.UploadByte c E r.indexFileURL b w1 = (.done none, w2))
    (hsplit : ∀ x ∈ vs,
      splitPath E (entry.URL ++ "/" ++ name ++ "-" ++ x.Version ++ ".tgz") = .done (.ok (loc x)))
    (hdelete : ∀ i x, vs[i]? = some x →
      (c.DeleteObject (loc x).1 (loc x).2
        ((vs.take i).foldl (fun s y => (c.DeleteObject (loc y).1 (loc y).2 s).2) w2.remote)).1 =
          none) :
    (Repo.uploadIndexFile.document E
        (Repo.RemoveChart.newIndex index name "" none)).Entries.get name = none ∧
      r.RemoveChart c E name "" retry (fuel + 1) w =
        (.done none,
          { remote := vs.foldl (fun s y => (c.DeleteObject (loc y).1 (loc y).2 s).2) w2.remote,
            calls := w.calls ++ [.Object r.indexFileURL, .UploadByte r.indexFileURL b] ++
              vs.map (fun x =>
                Call.Delete (entry.URL ++ "/" ++ name ++ "-" ++ x.Version ++ ".tgz")) }) := by
  have hw : w1 = w.record (.Object r.indexFileURL) := by
    have := Repo.indexFile_world c E r w
    rw [hload] at this
    exact this
  have hup : r.uploadIndexFile c E (Repo.RemoveChart.newIndex index name "" none) w1 =
      (.done none, w2) := by
    unfold Repo.uploadIndexFile
    simp only [hmarshal]
    exact hstore
  have hcalls2 : w2.calls = w.calls ++ [.Object r.indexFileURL, .UploadByte r.indexFileURL b] := by
    have := bos.UploadByte_calls c E r.indexFileURL b w1
    rw [hstore] at this
    simp only at this
    rw [this, hw]
    simp [World.record]
  refine ⟨?_, ?_⟩
  · rw [Repo.uploadIndexFile.document_get]
    unfold Repo.RemoveChart.newIndex
    simp [EntryMap.get_delete_self]
  · unfold Repo.RemoveChart
    rw [M.bind_done hload]
    simp only [hname]
    rw [Repo.RemoveChart.loop_all r entry name vs hentry vs 0 [] hnonempty]
    simp only [List.nil_append]
    rw [M.bind_done hup]
    simp only [reduceCtorEq, false_and, ↓reduceIte]
    rw [Repo.RemoveChart.deleteAll_accepted c E
      (fun x => entry.URL ++ "/" ++ name ++ "-" ++ x.Version ++ ".tgz") loc vs w2 hsplit hdelete,
      hcalls2]

/-- The case left out of the amended C5: on records of foo that are an empty
version followed by `latest`, the loop of `RemoveChart("foo", "")` leaves at
the empty version, with one URL collected. -/
theorem RemoveChart_loop_stops_at_empty_version :
    Repo.RemoveChart.loop Sample.repo "foo" ""
        [Sample.record "foo" "" "d1", Sample.record "foo" "latest" "d0"]
        [Sample.record "foo" "" "d1", Sample.record "foo" "latest" "d0"] 0 [] =
      .done (["bos://bucket/charts/foo-.tgz"], some [Sample.record "foo" "latest" "d0"]) := by
  decide

/-! ## PushChart with force -/

/-- What `updateIndexFile` prepares for a chart whose version is already in
the index: under the name of the chart, the swap removal at the first record
of that version followed by the new record. -/
theorem Repo.updateIndexFile.newIndex_get (E : Env) (index : IndexFile) (chartpath : String)
    (chart : Metadata) (url hash : String) (vs : List ChartVersion)
    (hname : index.Entries.get chart.Name = some vs)
    (hmem : chart.Version ∈ vs.map ChartVersion.Version) :
    (Repo.updateIndexFile.newIndex E index chartpath chart url hash).Entries.get chart.Name =
      some (swapRemove vs (vs.findIdx (fun x => decide (x.Version = chart.Version))) ++
        [{ Metadata := chart, URLs := [E.urlJoin url (E.filepathSplit chartpath).2],
           Created := E.now, Digest := hash }]) := by
  have hex : ∃ x ∈ vs, x.Version = chart.Version := by
    obtain ⟨x, hx, hxv⟩ := List.mem_map.1 hmem
    exact ⟨x, hx, hxv⟩
  have hsome : (vs.find? (fun x => decide (x.Version = chart.Version))).isSome = true := by
    rw [List.find?_isSome]
    obtain ⟨x, hx, hxv⟩ := hex
    exact ⟨x, hx, by simp [hxv]⟩
  obtain ⟨cur, hcur⟩ := Option.isSome_iff_exists.1 hsome
  have hcurv : cur.Version = chart.Version := by
    have := List.find?_some hcur
    simpa using this
  unfold Repo.updateIndexFile.newIndex IndexFile.Get IndexFile.Add
  simp only [hname, hcur, Option.getD_some, hcurv]
  rw [Repo.updateIndexFile.loop_first_match chart.Version vs vs 0 hex]
  simp only [Nat.zero_add, EntryMap.get_set_self, Option.getD_some]

/-- C3: when the versions of the chart's name in the loaded index are
pairwise distinct and include the chart's version, and the store accepts the
write, `PushChart` with force stores a document in which the name has as many
records as before, exactly one of them with the chart's version, and that
record carries the digest of the pushed file, the download URL formed from
the URL resolved by `getURL` for this push, and the chart's metadata; the
push then goes on to upload the archive. -/
theorem PushChart_force_replaces {σ : Type} (c : Client σ) (E : Env) (fuel : Nat) (r : Repo)
    (entry : Entry) (chartpath : String) (retry pub : Bool) (publicURL : String)
    (w w1 w2 : World σ) (index : IndexFile) (chart : Metadata) (vs : List ChartVersion)
    (hash url : String) (b : Bytes)
    (hsort : ∀ l, (E.sortVersions l).Perm l)
    (hload : r.indexFile c E w = (.done (.ok index), w1))
    (hchart : E.loaderLoad chartpath = .ok chart)
    (hname : index.Entries.get chart.Name = some vs)
    (hnodup : (vs.map ChartVersion.Version).Nodup)
    (hmem : chart.Version ∈ vs.map ChartVersion.Version)
    (hdigest : E.digestFile chartpath = .ok hash)
    (hentry : r.entry = some entry)
    (hurl : getURL E entry.URL pub publicURL = .ok url)
    (hmarshal : E.marshal (Repo.uploadIndexFile.document E
      (Repo.updateIndexFile.newIndex E index chartpath chart url hash)) = .ok b)
    (hstore : bos.UploadByte c E r.indexFileURL b w1 = (.done none, w2)) :
    (∃ stored nv,
        (Repo.uploadIndexFile.document E
          (Repo.updateIndexFile.newIndex E index chartpath chart url hash)).Entries.get
            chart.Name = some stored ∧
        stored.length = vs.length ∧
        stored.filter (fun x => decide (x.Version = chart.Version)) = [nv] ∧
        nv.Digest = hash ∧
        nv.URLs = [E.urlJoin url (E.filepathSplit chartpath).2] ∧
        nv.Metadata = chart) ∧
      r.PushChart c E fuel chartpath true retry pub publicURL w =
        Repo.PushChart.finish c E r chartpath none w2 ∧
      w2.calls = w.calls ++ [.Object r.indexFileURL, .UploadByte r.indexFileURL b] := by
  have hw : w1 = w.record (.Object r.indexFileURL) := by
    have := Repo.indexFile_world c E r w
    rw [hload] at this
    exact this
  have hex : ∃ x ∈ vs, x.Version = chart.Version := by
    obtain ⟨x, hx, hxv⟩ := List.mem_map.1 hmem
    exact ⟨x, hx, hxv⟩
  have hupd : r.updateIndexFile c E index chartpath chart pub publicURL w1 = (.done none, w2) := by
    unfold Repo.updateIndexFile Repo.uploadIndexFile
    simp only [hdigest, hentry, hurl, hmarshal]
    exact hstore
  refine ⟨?_, ?_, ?_⟩
  · refine ⟨E.sortVersions
        (swapRemove vs (vs.findIdx (fun x => decide (x.Version = chart.Version))) ++
          [(⟨chart, [E.urlJoin url (E.filepathSplit chartpath).2], E.now, hash⟩ : ChartVersion)]),
      (⟨chart, [E.urlJoin url (E.filepathSplit chartpath).2], E.now, hash⟩ : ChartVersion),
      ?_, ?_, ?_, rfl, rfl, rfl⟩
    · rw [Repo.uploadIndexFile.document_get,
        Repo.updateIndexFile.newIndex_get E index chartpath chart url hash vs hname hmem]
      rfl
    · have hex2 : ∃ x ∈ vs, (fun x => decide (ChartVersion.Version x = chart.Version)) x = true := by
        obtain ⟨x, hx, hxv⟩ := hex
        exact ⟨x, hx, by simp [hxv]⟩
      have hlt := List.findIdx_lt_length_of_exists hex2
      rw [(hsort _).length_eq, List.length_append,
        (swapRemove_perm vs _ hlt).length_eq, List.length_eraseIdx]
      simp only [hlt, ↓reduceIte, List.length_singleton]
      omega
    · have hp := swapRemove_findIdx_perm chart.Version vs hnodup hex
      have hfil : ((swapRemove vs (vs.findIdx (fun x => decide (x.Version = chart.Version))) ++
          [({ Metadata := chart, URLs := [E.urlJoin url (E.filepathSplit chartpath).2],
              Created := E.now, Digest := hash } : ChartVersion)]).filter
            (fun x => decide (x.Version = chart.Version))).Perm
          [({ Metadata := chart, URLs := [E.urlJoin url (E.filepathSplit chartpath).2],
              Created := E.now, Digest := hash } : ChartVersion)] := by
        rw [List.filter_append]
        have h1 : (swapRemove vs (vs.findIdx (fun x => decide (x.Version = chart.Version)))).filter
            (fun x => decide (x.Version = chart.Version)) = [] := by
          rw [List.filter_eq_nil_iff]
          intro x hx
          have hx2 := (hp.mem_iff).1 hx
          simpa using (List.mem_filter.1 hx2).2
        rw [h1]
        simp [ChartVersion.Version]
      exact List.perm_singleton.1 (((hsort _).filter _).trans hfil)
  · unfold Repo.PushChart
    rw [M.bind_done hload]
    simp only [hchart]
    simp only [Bool.true_eq_false, and_false, ↓reduceIte]
    rw [M.bind_done hupd]
    simp
  · have := bos.UploadByte_calls c E r.indexFileURL b w1
    rw [hstore] at this
    simp only at this
    rw [this, hw]
    simp [World.record]

/-! ## Instances -/

theorem Sample.insertDesc_perm (v : ChartVersion) :
    ∀ l : List ChartVersion, (Sample.insertDesc v l).Perm (v :: l)
  | [] => List.Perm.refl _
  | x :: rest => by
    unfold Sample.insertDesc
    split
    · exact List.Perm.refl _
    · exact ((Sample.insertDesc_perm v rest).cons x).trans (List.Perm.swap v x rest)

/-- The sort of the examples permutes its argument. -/
theorem Sample.sortVersions_perm :
    ∀ l : List ChartVersion, (Sample.env.sortVersions l).Perm l
  | [] => List.Perm.refl _
  | v :: rest =>
    (Sample.insertDesc_perm v (Sample.sortVersions rest)).trans
      ((Sample.sortVersions_perm rest).cons v)

/-- Witness of `RemoveChart_absent_version`: foo-2.0.0 removed from an index
that holds foo-1.0.0 only. -/
theorem RemoveChart_absent_version_witness :
    Sample.repo.RemoveChart Sample.memClient Sample.env "foo" "2.0.0" false 1
        (Sample.store [Sample.record "foo" "1.0.0" "d1"]) =
      (.done none,
        { remote := [(("bucket", "charts/index.yaml"),
            Sample.docBytes [Sample.record "foo" "1.0.0" "d1"])],
          calls := [.Object "bos://bucket/charts/index.yaml",
            .UploadByte "bos://bucket/charts/index.yaml"
              (Sample.docBytes [Sample.record "foo" "1.0.0" "d1"])] }) :=
  (RemoveChart_absent_version Sample.memClient Sample.env Sample.repo "foo" "2.0.0" false 0
    (Sample.store [Sample.record "foo" "1.0.0" "d1"])
    { remote := (Sample.store [Sample.record "foo" "1.0.0" "d1"]).remote,
      calls := [.Object "bos://bucket/charts/index.yaml"] }
    { remote := [(("bucket", "charts/index.yaml"),
        Sample.docBytes [Sample.record "foo" "1.0.0" "d1"])],
      calls := [.Object "bos://bucket/charts/index.yaml",
        .UploadByte "bos://bucket/charts/index.yaml"
          (Sample.docBytes [Sample.record "foo" "1.0.0" "d1"])] }
    { APIVersion := "v1", Generated := 0,
      Entries := [("foo", [Sample.record "foo" "1.0.0" "d1"])] }
    [Sample.record "foo" "1.0.0" "d1"]
    (Sample.docBytes [Sample.record "foo" "1.0.0" "d1"])
    Sample.sortVersions_perm (by decide) (by decide) (by decide) (by decide) (by decide)
    (by decide)).1

/-- Witness of `RemoveChart_one_version`: foo-1.0.0 removed from an index
that holds foo-1.1.0 and foo-1.0.0, in a store that also holds both archives
and refuses to delete what it does not hold; afterwards the index holds
foo-1.1.0 and the archive of foo-1.0.0 is gone. -/
theorem RemoveChart_one_version_witness :
    Sample.repo.RemoveChart Sample.strictClient Sample.env "foo" "1.0.0" false 1
        (Sample.storeWithArchives
          [Sample.record "foo" "1.1.0" "d1", Sample.record "foo" "1.0.0" "d0"]) =
      (.done none,
        { remote := [(("bucket", "charts/index.yaml"),
              Sample.docBytes [Sample.record "foo" "1.1.0" "d1"]),
            Sample.archive "1.1.0"],
          calls := [.Object "bos://bucket/charts/index.yaml",
            .UploadByte "bos://bucket/charts/index.yaml"
              (Sample.docBytes [Sample.record "foo" "1.1.0" "d1"]),
            .Delete "bos://bucket/charts/foo-1.0.0.tgz"] }) :=
  (RemoveChart_one_version Sample.strictClient Sample.env Sample.repo
    { Name := "myrepo", URL := "bos://bucket/charts" } "foo" "1.0.0" false 0
    (Sample.storeWithArchives
      [Sample.record "foo" "1.1.0" "d1", Sample.record "foo" "1.0.0" "d0"])
    { remote := (Sample.storeWithArchives
        [Sample.record "foo" "1.1.0" "d1", Sample.record "foo" "1.0.0" "d0"]).remote,
      calls := [.Object "bos://bucket/charts/index.yaml"] }
    { remote := [(("bucket", "charts/index.yaml"),
          Sample.docBytes [Sample.record "foo" "1.1.0" "d1"]),
        Sample.archive "1.1.0", Sample.archive "1.0.0"],
      calls := [.Object "bos://bucket/charts/index.yaml",
        .UploadByte "bos://bucket/charts/index.yaml"
          (Sample.docBytes [Sample.record "foo" "1.1.0" "d1"])] }
    { APIVersion := "v1", Generated := 0,
      Entries := [("foo", [Sample.record "foo" "1.1.0" "d1", Sample.record "foo" "1.0.0" "d0"])] }
    [Sample.record "foo" "1.1.0" "d1", Sample.record "foo" "1.0.0" "d0"]
    (Sample.docBytes [Sample.record "foo" "1.1.0" "d1"])
    "bucket" "charts/foo-1.0.0.tgz"
    Sample.sortVersions_perm (by decide) (by decide) (by decide) (by decide) (by decide)
    (by decide) (by decide) (by decide) (by decide) (by decide)).2.2.2

/-- Witness of `RemoveChart_all_versions`: every version of foo removed from
an index that holds foo-1.1.0 and foo-1.0.0, in a store that also holds both
archives and refuses to delete what it does not hold; afterwards the index is
empty and both archives are gone. -/
theorem RemoveChart_all_versions_witness :
    Sample.repo.RemoveChart Sample.strictClient Sample.env "foo" "" false 1
        (Sample.storeWithArchives
          [Sample.record "foo" "1.1.0" "d1", Sample.record "foo" "1.0.0" "d0"]) =
      (.done none,
        { remote := [(("bucket", "charts/index.yaml"), [])],
          calls := [.Object "bos://bucket/charts/index.yaml",
            .UploadByte "bos://bucket/charts/index.yaml" [],
            .Delete "bos://bucket/charts/foo-1.1.0.tgz",
            .Delete "bos://bucket/charts/foo-1.0.0.tgz"] }) :=
  ((RemoveChart_all_versions Sample.strictClient Sample.env Sample.repo
    { Name := "myrepo", URL := "bos://bucket/charts" } "foo" false 0
    (Sample.storeWithArchives
      [Sample.record "foo" "1.1.0" "d1", Sample.record "foo" "1.0.0" "d0"])
    { remote := (Sample.storeWithArchives
        [Sample.record "foo" "1.1.0" "d1", Sample.record "foo" "1.0.0" "d0"]).remote,
      calls := [.Object "bos://bucket/charts/index.yaml"] }
    { remote := [(("bucket", "charts/index.yaml"), []),
        Sample.archive "1.1.0", Sample.archive "1.0.0"],
      calls := [.Object "bos://bucket/charts/index.yaml",
        .UploadByte "bos://bucket/charts/index.yaml" []] }
    { APIVersion := "v1", Generated := 0,
      Entries := [("foo", [Sample.record "foo" "1.1.0" "d1", Sample.record "foo" "1.0.0" "d0"])] }
    [Sample.record "foo" "1.1.0" "d1", Sample.record "foo" "1.0.0" "d0"]
    []
    (fun x => ("bucket", "charts/foo-" ++ x.Version ++ ".tgz"))
    (by decide) (by decide) (by decide) (by decide) (by decide) (by decide) (by decide)
    (by
      intro i x hx
      match i, hx with
      | 0, hx =>
        simp only [List.getElem?_cons_zero, Option.some.injEq] at hx
        subst hx
        decide
      | 1, hx =>
        simp only [List.getElem?_cons_succ, List.getElem?_cons_zero, Option.some.injEq] at hx
        subst hx
        decide
      | n + 2, hx => simp at hx)).2).trans (by decide)

/-- Witness of `PushChart_force_replaces`: foo-1.0.0 pushed with force on an
index that holds foo-1.1.0 and foo-1.0.0 (digest `d0`): the stored index
holds two records of foo, that of 1.0.0 with digest `sha-new`. -/
theorem PushChart_force_replaces_witness :
    Sample.repo.PushChart Sample.memClient Sample.env 0 "/tmp/foo-1.0.0.tgz" true false false ""
        (Sample.store [Sample.record "foo" "1.1.0" "d1", Sample.record "foo" "1.0.0" "d0"]) =
      Repo.PushChart.finish Sample.memClient Sample.env Sample.repo "/tmp/foo-1.0.0.tgz" none
        { remote := [(("bucket", "charts/index.yaml"),
            Sample.docBytes
              [Sample.record "foo" "1.1.0" "d1", Sample.record "foo" "1.0.0" "sha-new"])],
          calls := [.Object "bos://bucket/charts/index.yaml",
            .UploadByte "bos://bucket/charts/index.yaml"
              (Sample.docBytes
                [Sample.record "foo" "1.1.0" "d1", Sample.record "foo" "1.0.0" "sha-new"])] } :=
  (PushChart_force_replaces Sample.memClient Sample.env 0 Sample.repo
    { Name := "myrepo", URL := "bos://bucket/charts" } "/tmp/foo-1.0.0.tgz" false false ""
    (Sample.store [Sample.record "foo" "1.1.0" "d1", Sample.record "foo" "1.0.0" "d0"])
    { remote :=
        (Sample.store [Sample.record "foo" "1.1.0" "d1", Sample.record "foo" "1.0.0" "d0"]).remote,
      calls := [.Object "bos://bucket/charts/index.yaml"] }
    { remote := [(("bucket", "charts/index.yaml"),
        Sample.docBytes
          [Sample.record "foo" "1.1.0" "d1", Sample.record "foo" "1.0.0" "sha-new"])],
      calls := [.Object "bos://bucket/charts/index.yaml",
        .UploadByte "bos://bucket/charts/index.yaml"
          (Sample.docBytes
            [Sample.record "foo" "1.1.0" "d1", Sample.record "foo" "1.0.0" "sha-new"])] }
    { APIVersion := "v1", Generated := 0,
      Entries := [("foo", [Sample.record "foo" "1.1.0" "d1", Sample.record "foo" "1.0.0" "d0"])] }
    { Name := "foo", Version := "1.0.0", Description := "" }
    [Sample.record "foo" "1.1.0" "d1", Sample.record "foo" "1.0.0" "d0"]
    "sha-new" "bos://bucket/charts"
    (Sample.docBytes [Sample.record "foo" "1.1.0" "d1", Sample.record "foo" "1.0.0" "sha-new"])
    Sample.sortVersions_perm (by decide) (by decide) (by decide) (by decide) (by decide)
    (by decide) (by decide) (by decide) (by decide) (by decide)).2.1

end HelmBos
